import Mathlib

/-!
# Wildberries tariff sync: a model of the sync engine, exporter and scheduler

The development embeds three source files:

* `src/services/parse_wb.js`  : `parseNumber`, `updateTariffs`
* `src/services/google.js`    : `deleteSheetByName`, `getSheetId`, `exportToGoogleSheet`
* `src/services/crontab.js`   : `setupCronJobs`, `initialize`

The database, the HTTP client and the spreadsheet service are external
collaborators.  The `tariffs` table is modelled as a list of rows with the
statement semantics of `INSERT` and `UPDATE ... WHERE id = ?`; every call
that can reject is given a reply by an environment record, so that each
failure path of the JavaScript is a path of the model.
-/

set_option autoImplicit false

namespace WB

/-! ## JavaScript numbers and `parseFloat` -/

/-- A JavaScript number as produced by `parseFloat`.  A finite number is given
by its sign and its magnitude, a rational that is the value of a binary64
double; the sign is kept apart so that `-0` is represented. -/
inductive JSNumber where
  | nan
  | infinity (negative : Bool)
  | finite (negative : Bool) (magnitude : ℚ)
  deriving DecidableEq

/-- White space and line terminators skipped by `parseFloat` (ECMAScript
`TrimString` with `start`). -/
def isStrWhiteSpaceChar (c : Char) : Bool :=
  c.toNat = 9 || c.toNat = 10 || c.toNat = 11 || c.toNat = 12 || c.toNat = 13 ||
  c.toNat = 32 || c.toNat = 160 || c.toNat = 5760 ||
  (8192 ≤ c.toNat && c.toNat ≤ 8202) ||
  c.toNat = 8232 || c.toNat = 8233 || c.toNat = 8239 || c.toNat = 8287 ||
  c.toNat = 12288 || c.toNat = 65279

/-- The ECMAScript production `DecimalDigit`: `0` to `9`. -/
def isDecimalDigit (c : Char) : Bool := 48 ≤ c.toNat && c.toNat ≤ 57

/-- Mathematical value of one `DecimalDigit`. -/
def digitValue (c : Char) : Nat := c.toNat - 48

/-- Mathematical value of `DecimalDigits`: the value so far times ten plus the
next digit. -/
def digitsMV (ds : List Char) : Nat :=
  ds.foldl (fun acc c => 10 * acc + digitValue c) 0

/-- Mathematical value of a `SignedInteger`, read from the front of `cs`.  When
no digit follows, the exponent indicator is not part of the parsed text and
the contribution is `10 ^ 0`. -/
def signedIntegerMV : List Char → Int
  | '+' :: ds => (digitsMV (ds.takeWhile isDecimalDigit) : Int)
  | '-' :: ds => - (digitsMV (ds.takeWhile isDecimalDigit) : Int)
  | ds => (digitsMV (ds.takeWhile isDecimalDigit) : Int)

/-- Exponent contributed by an optional `ExponentPart` at the front of `cs`. -/
def exponentMV : List Char → Int
  | 'e' :: rest => signedIntegerMV rest
  | 'E' :: rest => signedIntegerMV rest
  | _ => 0

/-- Number of binary digits of `n`, counted by halving; `fuel` bounds the
number of halvings and `n` itself is always enough. -/
def bitLength : Nat → Nat → Nat
  | 0, _ => 0
  | fuel + 1, n => if n = 0 then 0 else bitLength fuel (n / 2) + 1

/-- Position of the leading binary digit of a positive `n`. -/
def floorLog2 (n : Nat) : Nat := bitLength n n - 1

/-- The integer nearest to `p / q`, a tie going to the even one. -/
def roundHalfEven (p q : Nat) : Nat :=
  if 2 * (p % q) < q then p / q
  else if q < 2 * (p % q) then p / q + 1
  else if (p / q) % 2 = 0 then p / q else p / q + 1

/-- The binary exponent of `p / q` for positive `p` and `q`: the `e` with
`2 ^ e ≤ p / q < 2 ^ (e + 1)`. -/
def binaryExponent (p q : Nat) : Int :=
  if p * 2 ^ ((floorLog2 q : Int) - (floorLog2 p : Int)).toNat
      < q * 2 ^ ((floorLog2 p : Int) - (floorLog2 q : Int)).toNat
  then (floorLog2 p : Int) - (floorLog2 q : Int) - 1
  else (floorLog2 p : Int) - (floorLog2 q : Int)

/-- Exponent of the spacing of binary64 doubles around a positive `x`: 52 binary
places below the leading digit, and never below the subnormal spacing
`2 ^ (-1074)`. -/
def ulpExponent (x : ℚ) : Int := max (binaryExponent x.num.toNat x.den) (-1022) - 52

/-- The Number value of a non-negative mathematical value `x` (ECMAScript
`RoundMVResult`, as the runtime computes it): the nearest binary64 double, a
tie going to the even significand, `Infinity` from `2 ^ 1024` on. -/
def roundMV (negative : Bool) (x : ℚ) : JSNumber :=
  if x = 0 then JSNumber.finite negative 0
  else if (2 : ℚ) ^ 1024 ≤
      (roundHalfEven (x.num.toNat * 2 ^ (- ulpExponent x).toNat)
        (x.den * 2 ^ (ulpExponent x).toNat) : ℚ) * 2 ^ ulpExponent x
  then JSNumber.infinity negative
  else JSNumber.finite negative
    ((roundHalfEven (x.num.toNat * 2 ^ (- ulpExponent x).toNat)
      (x.den * 2 ^ (ulpExponent x).toNat) : ℚ) * 2 ^ ulpExponent x)

/-- The longest text at the front of `u` that is a `StrUnsignedDecimalLiteral`,
turned into the Number value of its mathematical value; `NaN` when there is
none. -/
def scanUnsigned (negative : Bool) (u : List Char) : JSNumber :=
  if "Infinity".toList.isPrefixOf u then JSNumber.infinity negative
  else
    let ip := u.takeWhile isDecimalDigit
    match u.dropWhile isDecimalDigit with
    | '.' :: r =>
      let fp := r.takeWhile isDecimalDigit
      if ip.isEmpty && fp.isEmpty then JSNumber.nan
      else roundMV negative
        (((digitsMV ip : ℚ) + (digitsMV fp : ℚ) / 10 ^ fp.length)
          * 10 ^ exponentMV (r.dropWhile isDecimalDigit))
    | r =>
      if ip.isEmpty then JSNumber.nan
      else roundMV negative ((digitsMV ip : ℚ) * 10 ^ exponentMV r)

/-- ECMAScript `parseFloat` on a string given as its list of characters. -/
def parseFloat (s : List Char) : JSNumber :=
  match s.dropWhile isStrWhiteSpaceChar with
  | '+' :: u => scanUnsigned false u
  | '-' :: u => scanUnsigned true u
  | u => scanUnsigned false u

/-- The call `str.replace(p, r)` with one-character strings: only the first
occurrence is replaced. -/
def replaceFirst (p r : Char) : List Char → List Char
  | [] => []
  | c :: cs => if c = p then r :: cs else c :: replaceFirst p r cs

/-- Source `parseNumber` (parse_wb.js, lines 61-64); `none` is JavaScript `null`. -/
def parseNumber (str : String) : Option JSNumber :=
  if str = "-" then none
  else some (parseFloat (replaceFirst ',' '.' str.toList))

/-! ## Data model of the sync engine -/

/-- Instants, in milliseconds since the epoch. -/
abbrev Time := Nat

/-- Errors thrown by a collaborator. -/
abbrev Err := String

/-- The value `formattedDate = today.toISOString().split('T')[0]` (parse_wb.js,
line 37): the UTC calendar date of the instant, as a day number. -/
def formattedDate (today : Time) : Nat := today / 86400000

/-- The date `DATE(t)` of a `timestamptz` in a database session whose time zone
is `offset` milliseconds east of UTC, as a day number on the scale of
`formattedDate`. -/
def dateAtOffset (offset : Nat) (t : Time) : Nat := (t + offset) / 86400000

/-- One element of `warehouseList` in the fetch response. -/
structure Warehouse where
  warehouseName : String
  boxDeliveryAndStorageExpr : String
  boxDeliveryBase : String
  boxDeliveryLiter : String
  boxStorageBase : String
  boxStorageLiter : String
  deriving DecidableEq

/-- The part of the response read by the sync: `response.data.response.data`. -/
structure Payload where
  dtTillMax : String
  warehouseList : List Warehouse
  deriving DecidableEq

/-- The object `tariffData`; `created_at` is present only after the insert
branch has assigned it. -/
structure TariffData where
  warehouse_name : String
  delivery_expr : Option JSNumber
  delivery_base : Option JSNumber
  delivery_liter : Option JSNumber
  storage_base : Option JSNumber
  storage_liter : Option JSNumber
  dtTillMax : String
  updated_at : Time
  created_at : Option Time
  deriving DecidableEq

/-- A row of table `tariffs` (migration `20250716081012_tariffs.js`). -/
structure Row where
  id : Nat
  warehouse_name : String
  delivery_expr : Option JSNumber
  delivery_base : Option JSNumber
  delivery_liter : Option JSNumber
  storage_base : Option JSNumber
  storage_liter : Option JSNumber
  dtTillMax : String
  created_at : Time
  updated_at : Time
  deriving DecidableEq

/-- The table together with the next value of the `id` sequence. -/
structure Table where
  rows : List Row
  nextId : Nat
  deriving DecidableEq

/-- A write statement sent to the table. -/
inductive Write where
  | insert (data : TariffData)
  | update (id : Nat) (data : TariffData)
  deriving DecidableEq

/-- The row created by `insert(data)`: `id` from the sequence, `created_at`
from the column default when the object has none. -/
def newRow (dbNow : Time) (id : Nat) (d : TariffData) : Row :=
  { id := id
    warehouse_name := d.warehouse_name
    delivery_expr := d.delivery_expr
    delivery_base := d.delivery_base
    delivery_liter := d.delivery_liter
    storage_base := d.storage_base
    storage_liter := d.storage_liter
    dtTillMax := d.dtTillMax
    created_at := d.created_at.getD dbNow
    updated_at := d.updated_at }

/-- The effect of `update(data)` on one row selected by the `where`: the columns
present in the object are set, `id` is not among them. -/
def setColumns (d : TariffData) (r : Row) : Row :=
  { id := r.id
    warehouse_name := d.warehouse_name
    delivery_expr := d.delivery_expr
    delivery_base := d.delivery_base
    delivery_liter := d.delivery_liter
    storage_base := d.storage_base
    storage_liter := d.storage_liter
    dtTillMax := d.dtTillMax
    created_at := d.created_at.getD r.created_at
    updated_at := d.updated_at }

/-- Statement semantics: `insert` appends one row and advances the sequence;
`where({ id }).update(data)` rewrites every row with that `id`. -/
def applyWrite (dbNow : Time) (tbl : Table) : Write → Table
  | Write.insert d =>
    { rows := tbl.rows ++ [newRow dbNow tbl.nextId d], nextId := tbl.nextId + 1 }
  | Write.update id d =>
    { rows := tbl.rows.map (fun r => if r.id = id then setColumns d r else r)
      nextId := tbl.nextId }

/-- The object literal `tariffData` (parse_wb.js, lines 66-75). -/
def tariffDataOf (today : Time) (dtTillMax : String) (w : Warehouse) : TariffData :=
  { warehouse_name := w.warehouseName
    delivery_expr := parseNumber w.boxDeliveryAndStorageExpr
    delivery_base := parseNumber w.boxDeliveryBase
    delivery_liter := parseNumber w.boxDeliveryLiter
    storage_base := parseNumber w.boxStorageBase
    storage_liter := parseNumber w.boxStorageLiter
    dtTillMax := dtTillMax
    updated_at := today
    created_at := none }

/-- The statement chosen for one warehouse (parse_wb.js, lines 77-88):
`existingRecords.find` by name, then insert or update by the found `id`. -/
def writeFor (today : Time) (dtTillMax : String) (existingRecords : List Row)
    (w : Warehouse) : Write :=
  match existingRecords.find? (fun r => decide (r.warehouse_name = w.warehouseName)) with
  | none => Write.insert { tariffDataOf today dtTillMax w with created_at := some today }
  | some existingRecord => Write.update existingRecord.id (tariffDataOf today dtTillMax w)

/-! ## The spreadsheet exporter (`google.js`) -/

/-- The JavaScript values that occur in a queried row and in a sheet cell. -/
inductive JSValue where
  | null
  | undefined
  | number (x : JSNumber)
  | string (s : String)
  | date (t : Time)
  deriving DecidableEq

/-- A row object returned by the query: its own properties in key order. -/
abbrev JSObject := List (String × JSValue)

/-- The entry `properties` of one sheet in the `spreadsheets.get` reply. -/
structure SheetProperties where
  title : String
  sheetId : Nat
  deriving DecidableEq

/-- The requests the exporter sends to the spreadsheet service. -/
inductive SheetRequest where
  | spreadsheetsGet
  | deleteSheet (sheetId : Nat)
  | valuesGet (range : String)
  | addSheet (title : String)
  | valuesClear (range : String)
  | valuesUpdate (range : String) (values : List (List JSValue))
  | setBasicFilter (sheetId startRowIndex endRowIndex startColumnIndex endColumnIndex : Nat)
  deriving DecidableEq

/-- The requests that change the spreadsheet. -/
def SheetRequest.isMutating : SheetRequest → Bool
  | SheetRequest.spreadsheetsGet => false
  | SheetRequest.valuesGet _ => false
  | SheetRequest.deleteSheet _ => true
  | SheetRequest.addSheet _ => true
  | SheetRequest.valuesClear _ => true
  | SheetRequest.valuesUpdate _ _ => true
  | SheetRequest.setBasicFilter _ _ _ _ _ => true

/-- Replies of the collaborators to one call of `exportToGoogleSheet`, one
field per call site, in source order.  An `Option Err` field is `none` when
the call resolves and `some e` when it rejects with `e`. -/
structure SheetsEnv where
  authErr : Option Err
  sheetsAtDelete : Except Err (List SheetProperties)
  deleteErr : Option Err
  probeErr : Option Err
  addSheetErr : Option Err
  query : Except Err (List JSObject)
  clearErr : Option Err
  updateErr : Option Err
  sheetsAtFilter : Except Err (List SheetProperties)
  filterErr : Option Err
  toLocaleString : Time → String

/-- What one call did: the error it threw, if any, and the requests it sent. -/
structure ExportResult where
  thrown : Option Err
  requests : List SheetRequest
  deriving DecidableEq

/-- Constant `SHEET_NAME` (google.js, line 23). -/
def SHEET_NAME : String := "stocks_coefs"

/-- Source `deleteSheetByName` (google.js, lines 61-86). -/
def deleteSheetByName (env : SheetsEnv) (sheetName : String) : ExportResult :=
  match env.sheetsAtDelete with
  | Except.error e => { thrown := some e, requests := [SheetRequest.spreadsheetsGet] }
  | Except.ok sheets =>
    match sheets.find? (fun s => decide (s.title = sheetName)) with
    | none => { thrown := none, requests := [SheetRequest.spreadsheetsGet] }
    | some sheetToDelete =>
      { thrown := env.deleteErr
        requests := [SheetRequest.spreadsheetsGet, SheetRequest.deleteSheet sheetToDelete.sheetId] }

/-- Source `getSheetId` (google.js, lines 97-108). -/
def getSheetId (env : SheetsEnv) (sheetName : String) : Except Err Nat :=
  match env.sheetsAtFilter with
  | Except.error e => Except.error e
  | Except.ok sheets =>
    match sheets.find? (fun s => decide (s.title = sheetName)) with
    | none => Except.error ("Sheet \"" ++ sheetName ++ "\" not found")
    | some sheet => Except.ok sheet.sheetId

/-- The expression `row[header]`. -/
def getProperty (row : JSObject) (header : String) : JSValue :=
  match row.find? (fun kv => decide (kv.1 = header)) with
  | some kv => kv.2
  | none => JSValue.undefined

/-- The cell written for one value (google.js, lines 178-180). -/
def cellOf (env : SheetsEnv) : JSValue → JSValue
  | JSValue.date t => JSValue.string (env.toLocaleString t)
  | JSValue.null => JSValue.string ""
  | v => v

/-- The array `[headers, ...values]` (google.js, lines 175-182 and 195). -/
def sheetMatrix (env : SheetsEnv) (first : JSObject) (data : List JSObject) :
    List (List JSValue) :=
  let headers := first.map (fun kv => kv.1)
  headers.map JSValue.string ::
    data.map (fun row => headers.map (fun header => cellOf env (getProperty row header)))

/-- Lines 184-220 of google.js: clear, write, resolve the sheet id, set the
filter.  `first` is `data[0]`. -/
def writeSheet (env : SheetsEnv) (first : JSObject) (data : List JSObject) : ExportResult :=
  let clear := SheetRequest.valuesClear (SHEET_NAME ++ "!A:Z")
  let update := SheetRequest.valuesUpdate (SHEET_NAME ++ "!A1") (sheetMatrix env first data)
  match env.clearErr with
  | some e => { thrown := some e, requests := [clear] }
  | none =>
    match env.updateErr with
    | some e => { thrown := some e, requests := [clear, update] }
    | none =>
      match getSheetId env SHEET_NAME with
      | Except.error e =>
        { thrown := some e, requests := [clear, update, SheetRequest.spreadsheetsGet] }
      | Except.ok sheetId =>
        { thrown := env.filterErr
          requests := [clear, update, SheetRequest.spreadsheetsGet,
            SheetRequest.setBasicFilter sheetId 0 (data.length + 1) 0 first.length] }

/-- Lines 163-220 of google.js: the query, the early return on no rows, then
the write. -/
def exportRows (env : SheetsEnv) : ExportResult :=
  match env.query with
  | Except.error e => { thrown := some e, requests := [] }
  | Except.ok [] => { thrown := none, requests := [] }
  | Except.ok (first :: rest) => writeSheet env first (first :: rest)

/-- Source `exportToGoogleSheet` (google.js, lines 123-225).  The error of
`deleteSheetByName` is caught and dropped; a failed probe read leads to
`addSheet`. -/
def exportToGoogleSheet (env : SheetsEnv) : ExportResult :=
  match env.authErr with
  | some e => { thrown := some e, requests := [] }
  | none =>
    let ensured := (deleteSheetByName env "Лист1").requests ++
      [SheetRequest.valuesGet (SHEET_NAME ++ "!A1")]
    match env.probeErr with
    | none =>
      { thrown := (exportRows env).thrown, requests := ensured ++ (exportRows env).requests }
    | some _ =>
      match env.addSheetErr with
      | some e => { thrown := some e, requests := ensured ++ [SheetRequest.addSheet SHEET_NAME] }
      | none =>
        { thrown := (exportRows env).thrown
          requests := ensured ++ SheetRequest.addSheet SHEET_NAME :: (exportRows env).requests }

/-! ## The sync run (`parse_wb.js`) -/

/-- Replies of the collaborators to one call of `updateTariffs`: the clock,
the database session's `DATE(...)` of an instant (it depends on the session
time zone; in a UTC session it is `formattedDate`), the HTTP response, the
select, the write of each loop iteration (indexed by the position of the
warehouse in `warehouseList`), and the exporter's collaborators. -/
structure SyncEnv where
  today : Time
  dbNow : Time
  dbDate : Time → Nat
  fetch : Except Err Payload
  selectErr : Option Err
  writeErr : Nat → Option Err
  sheets : SheetsEnv

/-- State of the `for` loop when it stops. -/
structure LoopResult where
  thrown : Option Err
  table : Table
  writes : List Write
  deriving DecidableEq

/-- The loop `for (const warehouse of warehouseList)` (parse_wb.js, lines
52-89) from iteration `i` on: a rejected write leaves the loop with the table
as it is; `writes` lists the statements sent so far. -/
def syncLoop (env : SyncEnv) (dtTillMax : String) (existingRecords : List Row) :
    Nat → List Warehouse → Table → List Write → LoopResult
  | _, [], tbl, sent => { thrown := none, table := tbl, writes := sent }
  | i, warehouse :: rest, tbl, sent =>
    let w := writeFor env.today dtTillMax existingRecords warehouse
    match env.writeErr i with
    | some e => { thrown := some e, table := tbl, writes := sent ++ [w] }
    | none =>
      syncLoop env dtTillMax existingRecords (i + 1) rest (applyWrite env.dbNow tbl w)
        (sent ++ [w])

/-- What one call of `updateTariffs` did: the error rethrown to the caller, the
table afterwards, the write statements sent, and the exporter's result when
the exporter was invoked. -/
structure SyncResult where
  thrown : Option Err
  table : Table
  writes : List Write
  exported : Option ExportResult
  deriving DecidableEq

/-- The rows returned by `where DATE(created_at) = formattedDate` (parse_wb.js,
lines 48-50): the database's date of `created_at`, in the session time zone,
compared with the UTC date of `today`. -/
def existingRecords (dbDate : Time → Nat) (today : Time) (tbl : Table) : List Row :=
  tbl.rows.filter (fun r => decide (dbDate r.created_at = formattedDate today))

/-- Source `updateTariffs` (parse_wb.js, lines 34-100). -/
def updateTariffs (env : SyncEnv) (tbl : Table) : SyncResult :=
  match env.fetch with
  | Except.error e => { thrown := some e, table := tbl, writes := [], exported := none }
  | Except.ok payload =>
    match env.selectErr with
    | some e => { thrown := some e, table := tbl, writes := [], exported := none }
    | none =>
      let loop := syncLoop env payload.dtTillMax (existingRecords env.dbDate env.today tbl) 0
        payload.warehouseList tbl []
      match loop.thrown with
      | some e => { thrown := some e, table := loop.table, writes := loop.writes, exported := none }
      | none =>
        let ex := exportToGoogleSheet env.sheets
        { thrown := ex.thrown, table := loop.table, writes := loop.writes, exported := some ex }

/-! ## The scheduler (`crontab.js`) -/

/-- What a piece of scheduler code did to the process: the code passed to
`process.exit`, if it was called, whether the cron job is registered, and the
sync run it made. -/
structure ProcessResult where
  exitCode : Option Nat
  cronRegistered : Bool
  sync : Option SyncResult
  deriving DecidableEq

/-- The callback registered by `setupCronJobs` (crontab.js, lines 27-34): the
error of the run is caught and logged. -/
def scheduledRun (env : SyncEnv) (tbl : Table) : ProcessResult :=
  { exitCode := none, cronRegistered := true, sync := some (updateTariffs env tbl) }

/-- Source `initialize` (crontab.js, lines 56-71); `select1Err` is the reply to
`knex.raw('SELECT 1')`.  One `try` block holds the connectivity check,
`setupCronJobs()` and the first `updateTariffs()`; its `catch` calls
`process.exit(1)`. -/
def initializeApp (select1Err : Option Err) (env : SyncEnv) (tbl : Table) : ProcessResult :=
  match select1Err with
  | some _ => { exitCode := some 1, cronRegistered := false, sync := none }
  | none =>
    let run := updateTariffs env tbl
    match run.thrown with
    | some _ => { exitCode := some 1, cronRegistered := true, sync := some run }
    | none => { exitCode := none, cronRegistered := true, sync := some run }

/-! ## Reading of the specification: comma-decimal values and decimal literals -/

/-- Value of a digit string read as a whole number, each digit weighted by its
power of ten. -/
def integerPartValue : List Char → ℚ
  | [] => 0
  | d :: ds => (digitValue d : ℚ) * 10 ^ ds.length + integerPartValue ds

/-- Value of a digit string read as the digits after a decimal point. -/
def fractionPartValue : List Char → ℚ
  | [] => 0
  | d :: ds => ((digitValue d : ℚ) + fractionPartValue ds) / 10

/-- The number written as `a`, a decimal point, `b`. -/
def commaAsDecimalPoint (a b : List Char) : ℚ := integerPartValue a + fractionPartValue b

/-- A well-formed comma-decimal number: decimal digits, one comma, decimal
digits. -/
def IsCommaDecimal (s : List Char) : Prop :=
  ∃ a b, (∀ c ∈ a, isDecimalDigit c = true) ∧ (∀ c ∈ b, isDecimalDigit c = true) ∧
    s = a ++ ',' :: b

/-- ECMAScript `DecimalDigits`: one or more decimal digits. -/
def IsDecimalDigits (l : List Char) : Prop := l ≠ [] ∧ ∀ c ∈ l, isDecimalDigit c = true

/-- ECMAScript `SignedInteger`. -/
def IsSignedInteger (l : List Char) : Prop :=
  IsDecimalDigits l ∨ ∃ ds, IsDecimalDigits ds ∧ (l = '+' :: ds ∨ l = '-' :: ds)

/-- ECMAScript `ExponentPart`, or nothing. -/
def IsOptExponentPart (l : List Char) : Prop :=
  l = [] ∨ ∃ si, IsSignedInteger si ∧ (l = 'e' :: si ∨ l = 'E' :: si)

/-- ECMAScript `StrUnsignedDecimalLiteral`. -/
def IsStrUnsignedDecimalLiteral (l : List Char) : Prop :=
  l = "Infinity".toList ∨
  (∃ a f e, IsDecimalDigits a ∧ (f = [] ∨ IsDecimalDigits f) ∧ IsOptExponentPart e ∧
    l = a ++ '.' :: (f ++ e)) ∨
  (∃ f e, IsDecimalDigits f ∧ IsOptExponentPart e ∧ l = '.' :: (f ++ e)) ∨
  (∃ a e, IsDecimalDigits a ∧ IsOptExponentPart e ∧ l = a ++ e)

/-- ECMAScript `StrDecimalLiteral`: an optional sign and an unsigned literal. -/
def IsStrDecimalLiteral (l : List Char) : Prop :=
  IsStrUnsignedDecimalLiteral l ∨
  ∃ u, IsStrUnsignedDecimalLiteral u ∧ (l = '+' :: u ∨ l = '-' :: u)

/-- Some text at the front of `s` is a `StrDecimalLiteral`. -/
def HasNumericStart (s : List Char) : Prop := ∃ p, p <+: s ∧ IsStrDecimalLiteral p

/-- The scanner's test for an unsigned literal at the front of `u`. -/
def unsignedStart (u : List Char) : Bool :=
  "Infinity".toList.isPrefixOf u || !(u.takeWhile isDecimalDigit).isEmpty ||
  (match u with
    | '.' :: r => !(r.takeWhile isDecimalDigit).isEmpty
    | _ => false)

/-! ## Notions used to state the properties of a sync run and of an export -/

/-- The table after a list of write statements, applied in order. -/
def runWrites (dbNow : Time) (tbl : Table) (ops : List Write) : Table :=
  ops.foldl (applyWrite dbNow) tbl

/-- The rows created by the inserts of `ops`, with ids drawn from `n` on. -/
def insertedOf (dbNow : Time) : Nat → List Write → List Row
  | _, [] => []
  | n, Write.insert d :: ops => newRow dbNow n d :: insertedOf dbNow (n + 1) ops
  | n, Write.update _ _ :: ops => insertedOf dbNow n ops

/-- Schema constraints of `tariffs`: `id` is a primary key and every id was
drawn from the sequence. -/
def Table.Consistent (tbl : Table) : Prop :=
  (tbl.rows.map (fun r => r.id)).Nodup ∧ ∀ r ∈ tbl.rows, r.id < tbl.nextId

/-- At most one row per (`warehouse_name`, calendar day of `created_at`), the
calendar day read by `day`. -/
def OnePerDay (day : Time → Nat) (rows : List Row) : Prop :=
  (rows.map (fun r => (r.warehouse_name, day r.created_at))).Nodup

/-- The rows of `after` that were appended since `before`. -/
def insertedRows (before after : Table) : List Row :=
  after.rows.drop before.rows.length

/-- Identity, name and creation instant of a row. -/
def rowKey (r : Row) : Nat × String × Time := (r.id, r.warehouse_name, r.created_at)

/-- The test `!existingRecord` for one warehouse. -/
def unmatched (ex : List Row) (w : Warehouse) : Bool :=
  !ex.any (fun r => decide (r.warehouse_name = w.warehouseName))

/-- The request is a `values.clear` or a `values.update`. -/
def SheetRequest.touchesValues : SheetRequest → Bool
  | SheetRequest.valuesClear _ => true
  | SheetRequest.valuesUpdate _ _ => true
  | _ => false

instance (day : Time → Nat) (rows : List Row) : Decidable (OnePerDay day rows) := by
  unfold OnePerDay; infer_instance

instance (tbl : Table) : Decidable tbl.Consistent := by
  unfold Table.Consistent; infer_instance

/-! ## Example inputs -/

/-- A warehouse entry whose numeric fields are all the sentinel. -/
def sampleWarehouse (name : String) : Warehouse :=
  { warehouseName := name
    boxDeliveryAndStorageExpr := "-"
    boxDeliveryBase := "-"
    boxDeliveryLiter := "-"
    boxStorageBase := "-"
    boxStorageLiter := "-" }

/-- A row of `tariffs` with no tariff values, for examples. -/
def sampleRow (id : Nat) (name : String) (created : Time) : Row :=
  { id := id
    warehouse_name := name
    delivery_expr := none
    delivery_base := none
    delivery_liter := none
    storage_base := none
    storage_liter := none
    dtTillMax := "2025-07-19"
    created_at := created
    updated_at := created }

/-- A spreadsheet service on which every call resolves, with no sheet besides
the target and no rows to export. -/
def quietSheets : SheetsEnv :=
  { authErr := none
    sheetsAtDelete := Except.ok []
    deleteErr := none
    probeErr := none
    addSheetErr := none
    query := Except.ok []
    clearErr := none
    updateErr := none
    sheetsAtFilter := Except.ok []
    filterErr := none
    toLocaleString := fun _ => "" }

/-- A fresh spreadsheet: the provider's default sheet is there, the target
sheet is not, and there are no rows for today. -/
def freshSheets : SheetsEnv :=
  { quietSheets with
    sheetsAtDelete := Except.ok [{ title := "Лист1", sheetId := 0 }]
    probeErr := some "Unable to parse range" }

/-- Two queried rows and a spreadsheet that has the target sheet. -/
def twoRowSheets : SheetsEnv :=
  { quietSheets with
    query := Except.ok
      [[("id", JSValue.number (JSNumber.finite false 1)), ("warehouse_name", JSValue.string "A"),
        ("delivery_base", JSValue.null), ("created_at", JSValue.date 5)],
       [("id", JSValue.number (JSNumber.finite false 2)), ("warehouse_name", JSValue.string "B"),
        ("delivery_base", JSValue.string "12.50"), ("created_at", JSValue.date 5)]]
    sheetsAtFilter := Except.ok [{ title := "stocks_coefs", sheetId := 42 }]
    toLocaleString := fun _ => "16.07.2025, 08:10:12" }

/-- A run at instant `today`, in a UTC database session, that fetches `ws` and
on which every call resolves. -/
def sampleEnv (today : Time) (ws : List Warehouse) : SyncEnv :=
  { today := today
    dbNow := today
    dbDate := formattedDate
    fetch := Except.ok { dtTillMax := "2025-07-20", warehouseList := ws }
    selectErr := none
    writeErr := fun _ => none
    sheets := quietSheets }

/-- A run that fetches `A`, `B`, `C` and whose second write is rejected. -/
def failingEnv : SyncEnv :=
  { sampleEnv 5 [sampleWarehouse "A", sampleWarehouse "B", sampleWarehouse "C"] with
    writeErr := fun i => if i = 1 then some "connection lost" else none }

/-- A startup on which the connectivity check succeeds and the first fetch is
rejected. -/
def fetchFailsEnv : SyncEnv :=
  { sampleEnv 5 [] with fetch := Except.error "Request failed with status code 401" }

/-- The run of `sampleEnv` in a database session three hours east of UTC. -/
def eastEnv (today : Time) (ws : List Warehouse) : SyncEnv :=
  { sampleEnv today ws with dbDate := dateAtOffset 10800000 }

/-- A table holding one row for warehouse `A`, created on 16 July 2025 at
21:30 UTC, which is 17 July, 00:30, three hours east. -/
def lateRowTable : Table := { rows := [sampleRow 1 "A" 1752701400000], nextId := 2 }

/-- A table holding one row for warehouse `A`, created on 16 July 2025 at
09:00 UTC. -/
def morningRowTable : Table := { rows := [sampleRow 1 "A" 1752656400000], nextId := 2 }

/-- An empty `tariffs` table. -/
def emptyTable : Table := { rows := [], nextId := 1 }

/-- A table holding one row for warehouse `A`, created at instant 3. -/
def oneRowTable : Table := { rows := [sampleRow 7 "A" 3], nextId := 8 }

/-! ## Lemmas on `parseFloat` -/

theorem foldl_digits (ds : List Char) (acc : Nat) :
    ds.foldl (fun acc c => 10 * acc + digitValue c) acc = acc * 10 ^ ds.length + digitsMV ds := by
  induction ds generalizing acc with
  | nil => simp [digitsMV]
  | cons d ds ih =>
    simp only [List.foldl_cons, List.length_cons, digitsMV]
    rw [ih, ih (10 * 0 + digitValue d)]
    ring

theorem digitsMV_cons (d : Char) (ds : List Char) :
    digitsMV (d :: ds) = digitValue d * 10 ^ ds.length + digitsMV ds := by
  simp only [digitsMV, List.foldl_cons]
  rw [foldl_digits]
  simp [digitsMV]

theorem integerPartValue_eq (ds : List Char) : integerPartValue ds = (digitsMV ds : ℚ) := by
  induction ds with
  | nil => simp [integerPartValue, digitsMV]
  | cons d ds ih => rw [digitsMV_cons, integerPartValue, ih]; push_cast; ring

theorem fractionPartValue_eq (ds : List Char) :
    fractionPartValue ds = (digitsMV ds : ℚ) / 10 ^ ds.length := by
  induction ds with
  | nil => simp [fractionPartValue, digitsMV]
  | cons d ds ih =>
    have h10 : (10 : ℚ) ^ ds.length ≠ 0 := pow_ne_zero _ (by norm_num)
    rw [digitsMV_cons, fractionPartValue, ih, List.length_cons, pow_succ]
    push_cast
    field_simp

theorem takeWhile_digits_append (a rest : List Char) (ha : ∀ c ∈ a, isDecimalDigit c = true) :
    (a ++ rest).takeWhile isDecimalDigit = a ++ rest.takeWhile isDecimalDigit := by
  induction a with
  | nil => simp
  | cons c a ih =>
    have hc : isDecimalDigit c = true := ha c (List.mem_cons_self _ _)
    simp [List.takeWhile_cons, hc, ih (fun x hx => ha x (List.mem_cons_of_mem _ hx))]

theorem dropWhile_digits_append (a rest : List Char) (ha : ∀ c ∈ a, isDecimalDigit c = true) :
    (a ++ rest).dropWhile isDecimalDigit = rest.dropWhile isDecimalDigit := by
  induction a with
  | nil => simp
  | cons c a ih =>
    have hc : isDecimalDigit c = true := ha c (List.mem_cons_self _ _)
    simp [List.dropWhile_cons, hc, ih (fun x hx => ha x (List.mem_cons_of_mem _ hx))]

theorem replaceFirst_digits_append (a rest : List Char) (ha : ∀ c ∈ a, isDecimalDigit c = true) :
    replaceFirst ',' '.' (a ++ ',' :: rest) = a ++ '.' :: rest := by
  induction a with
  | nil => simp [replaceFirst]
  | cons c a ih =>
    have hc : isDecimalDigit c = true := ha c (List.mem_cons_self _ _)
    have hne : c ≠ ',' := by
      intro h
      rw [h] at hc
      revert hc
      decide
    simp [replaceFirst, hne, ih (fun x hx => ha x (List.mem_cons_of_mem _ hx))]

theorem digit_not_white (c : Char) (hc : isDecimalDigit c = true) :
    isStrWhiteSpaceChar c = false := by
  simp only [isDecimalDigit, Bool.and_eq_true, decide_eq_true_eq] at hc
  simp only [isStrWhiteSpaceChar, Bool.or_eq_false_iff, Bool.and_eq_false_imp,
    decide_eq_false_iff_not, decide_eq_true_eq]
  omega

theorem digit_ne (c d : Char) (hc : isDecimalDigit c = true) (hd : isDecimalDigit d = false) :
    c ≠ d := by
  intro h
  rw [h, hd] at hc
  exact Bool.noConfusion hc

@[simp]
theorem roundMV_eq_nan (negative : Bool) (x : ℚ) : roundMV negative x = JSNumber.nan ↔ False := by
  unfold roundMV
  constructor
  · intro h
    split at h
    · exact JSNumber.noConfusion h
    · split at h <;> exact JSNumber.noConfusion h
  · exact False.elim

/-- The rounding on known doubles: an exact value, the double nearest to one
tenth, a tie going to the even significand, the largest double and the first
value that overflows, the smallest subnormal, and an underflow to zero. -/
theorem roundMV_examples :
    roundMV false (25 / 2) = JSNumber.finite false (25 / 2) ∧
      roundMV false (1 / 10)
        = JSNumber.finite false (3602879701896397 / 36028797018963968) ∧
      roundMV false 9007199254740993 = JSNumber.finite false 9007199254740992 ∧
      roundMV false (2 ^ 1024 - 2 ^ 970 - 1) = JSNumber.finite false (2 ^ 1024 - 2 ^ 971) ∧
      roundMV false (2 ^ 1024 - 2 ^ 970) = JSNumber.infinity false ∧
      roundMV true (10 ^ 400 - 1) = JSNumber.infinity true ∧
      roundMV false (5 / 10 ^ 324) = JSNumber.finite false (1 / 2 ^ 1074) ∧
      roundMV false (1 / 10 ^ 400) = JSNumber.finite false 0 := by
  refine ⟨?_, ?_, ?_, ?_, ?_, ?_, ?_, ?_⟩ <;> decide!

theorem bitLength_spec : ∀ (fuel n : Nat), n ≤ fuel → 0 < n →
    0 < bitLength fuel n ∧ 2 ^ (bitLength fuel n - 1) ≤ n ∧ n < 2 ^ bitLength fuel n := by
  intro fuel
  induction fuel with
  | zero => intro n h1 h2; omega
  | succ fuel ih =>
    intro n hle hpos
    have hne : n ≠ 0 := by omega
    simp only [bitLength, hne, if_false]
    by_cases h2 : n / 2 = 0
    · have hn1 : n = 1 := by omega
      subst hn1
      cases fuel <;> simp [bitLength]
    · have hpos2 : 0 < n / 2 := Nat.pos_of_ne_zero h2
      obtain ⟨hb, hlo, hhi⟩ := ih (n / 2) (by omega) hpos2
      refine ⟨by omega, ?_, ?_⟩
      · have : bitLength fuel (n / 2) + 1 - 1 = (bitLength fuel (n / 2) - 1) + 1 := by omega
        rw [this, pow_succ]
        omega
      · rw [pow_succ]
        omega

theorem floorLog2_spec (n : Nat) (hpos : 0 < n) :
    2 ^ floorLog2 n ≤ n ∧ n < 2 ^ (floorLog2 n + 1) := by
  obtain ⟨hb, hlo, hhi⟩ := bitLength_spec n n (Nat.le_refl _) hpos
  unfold floorLog2
  refine ⟨hlo, ?_⟩
  have : bitLength n n - 1 + 1 = bitLength n n := by omega
  rw [this]
  exact hhi


theorem zpow_two_toNat (z : Int) :
    (2 : ℚ) ^ z = (2 : ℚ) ^ z.toNat / (2 : ℚ) ^ (-z).toNat := by
  rcases le_total 0 z with h | h
  · have h1 : (-z).toNat = 0 := Int.toNat_eq_zero.mpr (by omega)
    have h2 : ((z.toNat : Nat) : Int) = z := Int.toNat_of_nonneg h
    rw [h1, pow_zero, div_one, ← zpow_natCast, h2]
  · have h1 : z.toNat = 0 := Int.toNat_eq_zero.mpr h
    have h2 : (((-z).toNat : Nat) : Int) = -z := Int.toNat_of_nonneg (by omega)
    rw [h1, pow_zero, one_div, ← zpow_natCast, h2, zpow_neg, inv_inv]

theorem binaryExponent_spec (p q : Nat) (hp : 0 < p) (hq : 0 < q) :
    (2 : ℚ) ^ binaryExponent p q ≤ (p : ℚ) / q ∧
      (p : ℚ) / q < (2 : ℚ) ^ (binaryExponent p q + 1) := by
  obtain ⟨hpl, hph⟩ := floorLog2_spec p hp
  obtain ⟨hql, hqh⟩ := floorLog2_spec q hq
  have hpl' : (2 : ℚ) ^ (floorLog2 p : Int) ≤ p := by
    rw [zpow_natCast]; exact_mod_cast hpl
  have hph' : (p : ℚ) < (2 : ℚ) ^ ((floorLog2 p : Int) + 1) := by
    rw [← Nat.cast_succ, zpow_natCast]; exact_mod_cast hph
  have hql' : (2 : ℚ) ^ (floorLog2 q : Int) ≤ q := by
    rw [zpow_natCast]; exact_mod_cast hql
  have hqh' : (q : ℚ) < (2 : ℚ) ^ ((floorLog2 q : Int) + 1) := by
    rw [← Nat.cast_succ, zpow_natCast]; exact_mod_cast hqh
  have hq0 : (0 : ℚ) < q := by exact_mod_cast hq
  have hp0 : (0 : ℚ) < p := by exact_mod_cast hp
  have h2 : (2 : ℚ) ≠ 0 := by norm_num
  have hpos : ∀ z : Int, (0 : ℚ) < (2 : ℚ) ^ z := fun z => zpow_pos (by norm_num) z
  have hlow : (2 : ℚ) ^ ((floorLog2 p : Int) - (floorLog2 q : Int) - 1) ≤ (p : ℚ) / q := by
    rw [le_div_iff₀ hq0]
    calc (2 : ℚ) ^ ((floorLog2 p : Int) - (floorLog2 q : Int) - 1) * q
        ≤ (2 : ℚ) ^ ((floorLog2 p : Int) - (floorLog2 q : Int) - 1)
            * (2 : ℚ) ^ ((floorLog2 q : Int) + 1) :=
          mul_le_mul_of_nonneg_left hqh'.le (hpos _).le
      _ = (2 : ℚ) ^ (floorLog2 p : Int) := by
          rw [← zpow_add₀ h2]; congr 1; ring
      _ ≤ p := hpl'
  have hhigh : (p : ℚ) / q < (2 : ℚ) ^ ((floorLog2 p : Int) - (floorLog2 q : Int) + 1) := by
    rw [div_lt_iff₀ hq0]
    calc (p : ℚ) < (2 : ℚ) ^ ((floorLog2 p : Int) + 1) := hph'
      _ = (2 : ℚ) ^ ((floorLog2 p : Int) - (floorLog2 q : Int) + 1)
            * (2 : ℚ) ^ (floorLog2 q : Int) := by
          rw [← zpow_add₀ h2]; congr 1; ring
      _ ≤ (2 : ℚ) ^ ((floorLog2 p : Int) - (floorLog2 q : Int) + 1) * q :=
          mul_le_mul_of_nonneg_left hql' (hpos _).le
  have htest : (p * 2 ^ ((floorLog2 q : Int) - (floorLog2 p : Int)).toNat
      < q * 2 ^ ((floorLog2 p : Int) - (floorLog2 q : Int)).toNat) ↔
      (p : ℚ) / q < (2 : ℚ) ^ ((floorLog2 p : Int) - (floorLog2 q : Int)) := by
    have hneg : (floorLog2 q : Int) - (floorLog2 p : Int)
        = -((floorLog2 p : Int) - (floorLog2 q : Int)) := by ring
    rw [zpow_two_toNat ((floorLog2 p : Int) - (floorLog2 q : Int)), ← hneg,
      div_lt_div_iff hq0 (pow_pos (by norm_num) _)]
    rw [Nat.mul_comm q]
    constructor
    · intro h; exact_mod_cast h
    · intro h; exact_mod_cast h
  unfold binaryExponent
  split
  · rename_i hT
    refine ⟨hlow, ?_⟩
    rw [sub_add_cancel]
    exact htest.mp hT
  · rename_i hT
    refine ⟨?_, hhigh⟩
    exact not_lt.mp (fun h => hT (htest.mpr h))


theorem binaryExponent_unique (x : ℚ) (e1 e2 : Int)
    (h1 : (2 : ℚ) ^ e1 ≤ x ∧ x < (2 : ℚ) ^ (e1 + 1))
    (h2 : (2 : ℚ) ^ e2 ≤ x ∧ x < (2 : ℚ) ^ (e2 + 1)) : e1 = e2 := by
  have two : (1 : ℚ) < 2 := by norm_num
  have a : e1 < e2 + 1 := (zpow_lt_zpow_iff_right₀ two).mp (lt_of_le_of_lt h1.1 h2.2)
  have b : e2 < e1 + 1 := (zpow_lt_zpow_iff_right₀ two).mp (lt_of_le_of_lt h2.1 h1.2)
  omega

theorem rat_eq_num_den (x : ℚ) (hx : 0 < x) :
    0 < x.num.toNat ∧ ((x.num.toNat : Nat) : ℚ) / (x.den : ℚ) = x := by
  have hnum : 0 < x.num := Rat.num_pos.mpr hx
  have hcast : ((x.num.toNat : Nat) : Int) = x.num := Int.toNat_of_nonneg hnum.le
  refine ⟨by omega, ?_⟩
  have : ((x.num.toNat : Nat) : ℚ) = (x.num : ℚ) :=
    calc ((x.num.toNat : Nat) : ℚ) = (((x.num.toNat : Nat) : Int) : ℚ) :=
          (Int.cast_natCast _).symm
      _ = (x.num : ℚ) := by rw [hcast]
  rw [this]
  exact Rat.num_div_den x


theorem roundHalfEven_exact (n Q : Nat) (hQ : 0 < Q) : roundHalfEven (n * Q) Q = n := by
  unfold roundHalfEven
  have h1 : n * Q % Q = 0 := Nat.mul_mod_left n Q
  have h2 : n * Q / Q = n := Nat.mul_div_cancel n hQ
  rw [h1, h2]
  simp [hQ]

/-- A positive value `n * 2 ^ k` with a significand `n` below `2 ^ 53`, in the
normal range (`2 ^ 52 ≤ n`, `-1074 ≤ k`) or on the subnormal grid
(`k = -1074`), and below `2 ^ 1024`, is a double, and rounding leaves it as it
is. -/
theorem roundMV_exact (negative : Bool) (x : ℚ) (n : Nat) (k : Int)
    (hx : x = (n : ℚ) * (2 : ℚ) ^ k) (hn0 : 0 < n) (hn : n < 2 ^ 53)
    (hgrid : (2 ^ 52 ≤ n ∧ -1074 ≤ k) ∨ k = -1074)
    (hmax : x < (2 : ℚ) ^ 1024) :
    roundMV negative x = JSNumber.finite negative x := by
  have two : (1 : ℚ) < 2 := by norm_num
  have h2 : (2 : ℚ) ≠ 0 := by norm_num
  have hpos : ∀ z : Int, (0 : ℚ) < (2 : ℚ) ^ z := fun z => zpow_pos (by norm_num) z
  have hn0' : (0 : ℚ) < n := by exact_mod_cast hn0
  have hxpos : 0 < x := by rw [hx]; exact mul_pos hn0' (hpos k)
  obtain ⟨hp, hfrac⟩ := rat_eq_num_den x hxpos
  have hq : 0 < x.den := x.den_pos
  have hspec := binaryExponent_spec x.num.toNat x.den hp hq
  rw [hfrac] at hspec
  have hulp : ulpExponent x = k := by
    unfold ulpExponent
    have hn' : (n : ℚ) < (2 : ℚ) ^ (53 : Nat) := by exact_mod_cast hn
    have hhi : x < (2 : ℚ) ^ (k + 52 + 1) := by
      rw [hx]
      calc (n : ℚ) * (2 : ℚ) ^ k < (2 : ℚ) ^ (53 : Nat) * (2 : ℚ) ^ k :=
            mul_lt_mul_of_pos_right hn' (hpos k)
        _ = (2 : ℚ) ^ (k + 52 + 1) := by
            rw [← zpow_natCast, ← zpow_add₀ h2]; congr 1; push_cast; ring
    rcases hgrid with ⟨h52, hk⟩ | hk
    · have h52' : (2 : ℚ) ^ (52 : Nat) ≤ (n : ℚ) := by exact_mod_cast h52
      have hlo : (2 : ℚ) ^ (k + 52) ≤ x := by
        rw [hx]
        calc (2 : ℚ) ^ (k + 52) = (2 : ℚ) ^ (52 : Nat) * (2 : ℚ) ^ k := by
              rw [← zpow_natCast, ← zpow_add₀ h2]; congr 1; push_cast; ring
          _ ≤ (n : ℚ) * (2 : ℚ) ^ k := mul_le_mul_of_nonneg_right h52' (hpos k).le
      have := binaryExponent_unique x _ _ hspec ⟨hlo, hhi⟩
      rw [this]
      omega
    · by_cases hbig : (2 : ℚ) ^ (k + 52) ≤ x
      · have := binaryExponent_unique x _ _ hspec ⟨hbig, hhi⟩
        rw [this]
        omega
      · have hlt : binaryExponent x.num.toNat x.den < k + 52 :=
          (zpow_lt_zpow_iff_right₀ two).mp (lt_of_le_of_lt hspec.1 (not_le.mp hbig))
        omega
  have hscaled : x.num.toNat * 2 ^ (-k).toNat = n * (x.den * 2 ^ k.toNat) := by
    have hden : (0 : ℚ) < x.den := by exact_mod_cast hq
    have e1 : ((x.num.toNat : Nat) : ℚ) = x * x.den := (div_eq_iff hden.ne').mp hfrac
    have hD : (0 : ℚ) < (2 : ℚ) ^ (-k).toNat := pow_pos (by norm_num) _
    have hxD : x * (2 : ℚ) ^ (-k).toNat = (n : ℚ) * (2 : ℚ) ^ k.toNat := by
      rw [hx, zpow_two_toNat k]
      field_simp
    have : ((x.num.toNat * 2 ^ (-k).toNat : Nat) : ℚ)
        = ((n * (x.den * 2 ^ k.toNat) : Nat) : ℚ) := by
      push_cast
      rw [e1]
      calc x * (x.den : ℚ) * (2 : ℚ) ^ (-k).toNat
          = (x * (2 : ℚ) ^ (-k).toNat) * (x.den : ℚ) := by ring
        _ = (n : ℚ) * (2 : ℚ) ^ k.toNat * (x.den : ℚ) := by rw [hxD]
        _ = (n : ℚ) * ((x.den : ℚ) * (2 : ℚ) ^ k.toNat) := by ring
    exact_mod_cast this
  unfold roundMV
  rw [if_neg hxpos.ne', hulp, hscaled,
    roundHalfEven_exact n _ (Nat.mul_pos hq (pow_pos (by norm_num) _)), ← hx,
    if_neg (not_le.mpr hmax)]

theorem parseFloat_unsigned (c : Char) (rest : List Char)
    (hws : isStrWhiteSpaceChar c = false) (hplus : c ≠ '+') (hminus : c ≠ '-') :
    parseFloat (c :: rest) = scanUnsigned false (c :: rest) := by
  unfold parseFloat
  rw [List.dropWhile_cons_of_neg (by simp [hws])]
  split
  · rename_i h; exact absurd (List.cons.inj h).1 hplus
  · rename_i h; exact absurd (List.cons.inj h).1 hminus
  · rfl

theorem scan_digits_point_digits (negative : Bool) (a b : List Char)
    (ha : ∀ c ∈ a, isDecimalDigit c = true) (hb : ∀ c ∈ b, isDecimalDigit c = true)
    (hne : a ≠ [] ∨ b ≠ []) :
    scanUnsigned negative (a ++ '.' :: b)
      = roundMV negative ((digitsMV a : ℚ) + (digitsMV b : ℚ) / 10 ^ b.length) := by
  have hI : "Infinity".toList.isPrefixOf (a ++ '.' :: b) = false := by
    cases a with
    | nil => rfl
    | cons c a =>
      have : c ≠ 'I' := digit_ne c 'I' (ha c (List.mem_cons_self _ _)) (by decide)
      simp [List.isPrefixOf, this, Ne.symm this]
  have hdot : ('.' :: b).dropWhile isDecimalDigit = '.' :: b := by
    rw [List.dropWhile_cons_of_neg (by decide)]
  have htake : (a ++ '.' :: b).takeWhile isDecimalDigit = a := by
    rw [takeWhile_digits_append a _ ha, List.takeWhile_cons_of_neg (by decide)]
    simp
  have hdrop : (a ++ '.' :: b).dropWhile isDecimalDigit = '.' :: b := by
    rw [dropWhile_digits_append a _ ha, hdot]
  have htb : b.takeWhile isDecimalDigit = b := by
    have := takeWhile_digits_append b [] hb
    simpa using this
  have hdb : b.dropWhile isDecimalDigit = [] := by
    have := dropWhile_digits_append b [] hb
    simpa using this
  unfold scanUnsigned
  rw [hI]
  simp only [hdrop, htake, htb, hdb]
  have hemp : (a.isEmpty && b.isEmpty) = false := by
    rcases hne with h | h
    · cases a with
      | nil => exact absurd rfl h
      | cons _ _ => rfl
    · cases b with
      | nil => exact absurd rfl h
      | cons _ _ => simp
  simp [hemp, exponentMV]

theorem scanUnsigned_nan_iff (negative : Bool) (u : List Char) :
    scanUnsigned negative u = JSNumber.nan ↔ unsignedStart u = false := by
  unfold scanUnsigned unsignedStart
  by_cases hI : "Infinity".toList.isPrefixOf u = true
  · rw [if_pos hI, hI]
    simp
  · simp only [hI, Bool.false_or, if_false, Bool.false_eq_true]
    cases u with
    | nil => simp
    | cons c rest =>
      by_cases hc : isDecimalDigit c = true
      · have hdot : c ≠ '.' := digit_ne c '.' hc (by decide)
        simp only [List.takeWhile_cons, hc, if_true, List.dropWhile_cons]
        split <;> simp [hdot]
      · have hc2 : isDecimalDigit c = false := by simpa using hc
        simp only [List.takeWhile_cons, hc2, List.dropWhile_cons, Bool.false_eq_true, if_false]
        by_cases hdot : c = '.'
        · subst hdot
          simp
        · split
          · rename_i h; exact absurd (List.cons.inj h).1 hdot
          · simp

theorem takeWhile_ne_nil_of_head (c : Char) (rest : List Char) (hc : isDecimalDigit c = true) :
    ((c :: rest).takeWhile isDecimalDigit).isEmpty = false := by
  simp [List.takeWhile_cons, hc]

theorem unsignedStart_of_digits_append (a rest : List Char) (ha : IsDecimalDigits a) :
    unsignedStart (a ++ rest) = true := by
  obtain ⟨hne, hall⟩ := ha
  cases a with
  | nil => exact absurd rfl hne
  | cons c a =>
    unfold unsignedStart
    rw [List.cons_append, takeWhile_ne_nil_of_head c _ (hall c (List.mem_cons_self _ _))]
    simp

theorem unsignedStart_of_literal (p u : List Char) (hp : p <+: u)
    (hlit : IsStrUnsignedDecimalLiteral p) : unsignedStart u = true := by
  obtain ⟨t, rfl⟩ := hp
  rcases hlit with h | ⟨a, f, e, ha, -, -, h⟩ | ⟨f, e, hf, -, h⟩ | ⟨a, e, ha, -, h⟩
  · subst h
    have : "Infinity".toList.isPrefixOf ("Infinity".toList ++ t) = true :=
      List.isPrefixOf_iff_prefix.mpr (List.prefix_append _ _)
    unfold unsignedStart
    rw [this]
    rfl
  · subst h
    rw [List.append_assoc]
    exact unsignedStart_of_digits_append a _ ha
  · subst h
    obtain ⟨hne, hall⟩ := hf
    cases f with
    | nil => exact absurd rfl hne
    | cons d f =>
      unfold unsignedStart
      simp only [List.cons_append]
      rw [takeWhile_ne_nil_of_head d _ (hall d (List.mem_cons_self _ _))]
      simp
  · subst h
    rw [List.append_assoc]
    exact unsignedStart_of_digits_append a _ ha

theorem takeWhile_isDecimalDigits (u : List Char)
    (h : (u.takeWhile isDecimalDigit).isEmpty = false) :
    IsDecimalDigits (u.takeWhile isDecimalDigit) := by
  refine ⟨?_, fun c hc => List.mem_takeWhile_imp hc⟩
  intro h0
  rw [h0] at h
  exact Bool.noConfusion h

theorem literal_of_unsignedStart (u : List Char) (h : unsignedStart u = true) :
    ∃ p, p <+: u ∧ IsStrUnsignedDecimalLiteral p := by
  unfold unsignedStart at h
  rw [Bool.or_eq_true, Bool.or_eq_true] at h
  rcases h with (h | h) | h
  · exact ⟨"Infinity".toList, List.isPrefixOf_iff_prefix.mp h, Or.inl rfl⟩
  · refine ⟨u.takeWhile isDecimalDigit, List.takeWhile_prefix _, Or.inr (Or.inr (Or.inr ?_))⟩
    exact ⟨_, [], takeWhile_isDecimalDigits u (by simpa using h), Or.inl rfl, by simp⟩
  · split at h
    · rename_i r
      refine ⟨'.' :: r.takeWhile isDecimalDigit,
        (List.prefix_cons_inj _).mpr (List.takeWhile_prefix _), Or.inr (Or.inr (Or.inl ?_))⟩
      exact ⟨_, [], takeWhile_isDecimalDigits r (by simpa using h), Or.inl rfl, by simp⟩
    · exact Bool.noConfusion h

theorem literal_head (p : List Char) (hlit : IsStrUnsignedDecimalLiteral p) :
    ∃ c rest, p = c :: rest ∧ c ≠ '+' ∧ c ≠ '-' := by
  have hd : ∀ a : List Char, IsDecimalDigits a → ∃ c rest, a = c :: rest ∧ c ≠ '+' ∧ c ≠ '-' := by
    intro a ha
    obtain ⟨hne, hall⟩ := ha
    cases a with
    | nil => exact absurd rfl hne
    | cons c a =>
      have hc := hall c (List.mem_cons_self _ _)
      exact ⟨c, a, rfl, digit_ne c '+' hc (by decide), digit_ne c '-' hc (by decide)⟩
  rcases hlit with h | ⟨a, f, e, ha, -, -, h⟩ | ⟨f, e, -, -, h⟩ | ⟨a, e, ha, -, h⟩
  · exact ⟨'I', "nfinity".toList, h, by decide, by decide⟩
  · obtain ⟨c, rest, rfl, h1, h2⟩ := hd a ha
    exact ⟨c, rest ++ '.' :: (f ++ e), by simp [h], h1, h2⟩
  · exact ⟨'.', f ++ e, h, by decide, by decide⟩
  · obtain ⟨c, rest, rfl, h1, h2⟩ := hd a ha
    exact ⟨c, rest ++ e, by simp [h], h1, h2⟩

theorem hasNumericStart_iff (t : List Char) :
    HasNumericStart t ↔
      (match t with
        | '+' :: u => unsignedStart u
        | '-' :: u => unsignedStart u
        | u => unsignedStart u) = true := by
  constructor
  · rintro ⟨p, hp, hlit | ⟨q, hq, hsign⟩⟩
    · obtain ⟨c, rest, rfl, h1, h2⟩ := literal_head p hlit
      obtain ⟨tl, rfl⟩ := hp
      have hstart := unsignedStart_of_literal _ _ (List.prefix_append (c :: rest) tl) hlit
      simp only [List.cons_append] at hstart ⊢
      split
      · rename_i h; exact absurd (List.cons.inj h).1 h1
      · rename_i h; exact absurd (List.cons.inj h).1 h2
      · exact hstart
    · obtain ⟨tl, rfl⟩ := hp
      rcases hsign with rfl | rfl
      · exact unsignedStart_of_literal q _ (List.prefix_append q tl) hq
      · exact unsignedStart_of_literal q _ (List.prefix_append q tl) hq
  · intro h
    split at h
    · obtain ⟨p, hp, hlit⟩ := literal_of_unsignedStart _ h
      exact ⟨'+' :: p, (List.prefix_cons_inj _).mpr hp, Or.inr ⟨p, hlit, Or.inl rfl⟩⟩
    · obtain ⟨p, hp, hlit⟩ := literal_of_unsignedStart _ h
      exact ⟨'-' :: p, (List.prefix_cons_inj _).mpr hp, Or.inr ⟨p, hlit, Or.inr rfl⟩⟩
    · obtain ⟨p, hp, hlit⟩ := literal_of_unsignedStart _ h
      exact ⟨p, hp, Or.inl hlit⟩

theorem parseFloat_nan_iff (s : List Char) :
    parseFloat s = JSNumber.nan ↔ ¬ HasNumericStart (s.dropWhile isStrWhiteSpaceChar) := by
  rw [hasNumericStart_iff]
  unfold parseFloat
  split <;> rw [scanUnsigned_nan_iff] <;> simp

theorem parseNumber_null_iff (s : String) : parseNumber s = none ↔ s = "-" := by
  unfold parseNumber
  split <;> simp [*]

/-! ## Lemmas on the sync loop and on the effect of its writes -/

theorem runWrites_cons (dbNow : Time) (tbl : Table) (op : Write) (ops : List Write) :
    runWrites dbNow tbl (op :: ops) = runWrites dbNow (applyWrite dbNow tbl op) ops := rfl

theorem syncLoop_shape (env : SyncEnv) (dt : String) (ex : List Row) (ws : List Warehouse) :
    ∀ (i : Nat) (tbl : Table) (sent : List Write),
    ∃ k k2, (syncLoop env dt ex i ws tbl sent).table
        = runWrites env.dbNow tbl ((ws.take k).map (writeFor env.today dt ex)) ∧
      (syncLoop env dt ex i ws tbl sent).writes
        = sent ++ (ws.take k2).map (writeFor env.today dt ex) := by
  induction ws with
  | nil => intro i tbl sent; exact ⟨0, 0, by simp [syncLoop, runWrites]⟩
  | cons w ws ih =>
    intro i tbl sent
    unfold syncLoop
    cases hw : env.writeErr i with
    | some e => exact ⟨0, 1, by simp [runWrites]⟩
    | none =>
      obtain ⟨k, k2, h1, h2⟩ := ih (i + 1) (applyWrite env.dbNow tbl (writeFor env.today dt ex w))
        (sent ++ [writeFor env.today dt ex w])
      exact ⟨k + 1, k2 + 1, by simp [h1, runWrites_cons], by simp [h2]⟩

theorem syncLoop_ok (env : SyncEnv) (dt : String) (ex : List Row) (ws : List Warehouse) :
    ∀ (i : Nat) (tbl : Table) (sent : List Write),
    (∀ j, j < ws.length → env.writeErr (i + j) = none) →
    syncLoop env dt ex i ws tbl sent =
      { thrown := none
        table := runWrites env.dbNow tbl (ws.map (writeFor env.today dt ex))
        writes := sent ++ ws.map (writeFor env.today dt ex) } := by
  induction ws with
  | nil => intro i tbl sent _; simp [syncLoop, runWrites]
  | cons w ws ih =>
    intro i tbl sent h
    unfold syncLoop
    have h0 : env.writeErr i = none := by simpa using h 0 (by simp)
    simp only [h0]
    rw [ih (i + 1) _ _ (fun j hj => by
      have := h (j + 1) (by simpa using hj)
      rwa [Nat.add_assoc, Nat.add_comm 1 j])]
    simp [runWrites_cons]

theorem syncLoop_fail (env : SyncEnv) (dt : String) (ex : List Row) (e : Err)
    (ws : List Warehouse) :
    ∀ (k i : Nat) (tbl : Table) (sent : List Write), k < ws.length →
    (∀ j, j < k → env.writeErr (i + j) = none) → env.writeErr (i + k) = some e →
    syncLoop env dt ex i ws tbl sent =
      { thrown := some e
        table := runWrites env.dbNow tbl ((ws.take k).map (writeFor env.today dt ex))
        writes := sent ++ (ws.take (k + 1)).map (writeFor env.today dt ex) } := by
  induction ws with
  | nil => intro k i tbl sent hk; simp at hk
  | cons w ws ih =>
    intro k i tbl sent hk hb hf
    unfold syncLoop
    cases k with
    | zero =>
      have h0 : env.writeErr i = some e := by simpa using hf
      simp [h0, runWrites]
    | succ k =>
      have h0 : env.writeErr i = none := by simpa using hb 0 (by simp)
      simp only [h0]
      rw [ih k (i + 1) _ _ (by simpa using hk)
        (fun j hj => by
          have := hb (j + 1) (by omega)
          rwa [Nat.add_assoc, Nat.add_comm 1 j])
        (by rwa [Nat.add_assoc, Nat.add_comm 1 k])]
      simp [runWrites_cons]

theorem writeFor_update (today : Time) (dt : String) (ex : List Row) (w : Warehouse)
    (id : Nat) (d : TariffData) (h : writeFor today dt ex w = Write.update id d) :
    d = tariffDataOf today dt w ∧
      ∃ r, ex.find? (fun r => decide (r.warehouse_name = w.warehouseName)) = some r ∧ r.id = id := by
  unfold writeFor at h
  split at h
  · exact Write.noConfusion h
  · rename_i r hr
    injection h with h1 h2
    exact ⟨h2.symm, r, hr, h1⟩

theorem writeFor_insert (today : Time) (dt : String) (ex : List Row) (w : Warehouse)
    (d : TariffData) (h : writeFor today dt ex w = Write.insert d) :
    d = { tariffDataOf today dt w with created_at := some today } ∧
      ∀ r ∈ ex, r.warehouse_name ≠ w.warehouseName := by
  unfold writeFor at h
  split at h
  · rename_i hr
    injection h with h1
    refine ⟨h1.symm, ?_⟩
    intro r hr2
    have := List.find?_eq_none.mp hr r hr2
    simpa using this
  · exact Write.noConfusion h

theorem writeFor_of_match (today : Time) (dt : String) (ex : List Row) (w : Warehouse)
    (h : ∃ r ∈ ex, r.warehouse_name = w.warehouseName) :
    ∃ r ∈ ex, r.warehouse_name = w.warehouseName ∧
      writeFor today dt ex w = Write.update r.id (tariffDataOf today dt w) := by
  unfold writeFor
  cases hf : ex.find? (fun r => decide (r.warehouse_name = w.warehouseName)) with
  | none =>
    obtain ⟨r, hr, hn⟩ := h
    have := List.find?_eq_none.mp hf r hr
    simp [hn] at this
  | some r =>
    exact ⟨r, List.mem_of_find?_eq_some hf, by simpa using List.find?_some hf, rfl⟩

theorem writeFor_of_no_match (today : Time) (dt : String) (ex : List Row) (w : Warehouse)
    (h : ∀ r ∈ ex, r.warehouse_name ≠ w.warehouseName) :
    writeFor today dt ex w =
      Write.insert { tariffDataOf today dt w with created_at := some today } := by
  unfold writeFor
  have : ex.find? (fun r => decide (r.warehouse_name = w.warehouseName)) = none := by
    rw [List.find?_eq_none]
    intro r hr
    simpa using h r hr
  rw [this]

theorem runWrites_updates_length (dbNow : Time) (ops : List Write)
    (hops : ∀ op ∈ ops, ∃ id d, op = Write.update id d) :
    ∀ tbl : Table, (runWrites dbNow tbl ops).rows.length = tbl.rows.length := by
  induction ops with
  | nil => intro tbl; rfl
  | cons op ops ih =>
    intro tbl
    obtain ⟨id, d, rfl⟩ := hops _ (List.mem_cons_self _ _)
    rw [runWrites_cons, ih (fun o ho => hops o (List.mem_cons_of_mem _ ho))]
    simp [applyWrite]

theorem runWrites_id_created (dbNow : Time) (ops : List Write)
    (hops : ∀ id d, Write.update id d ∈ ops → d.created_at = none) :
    ∀ tbl : Table, ∃ extra,
      (runWrites dbNow tbl ops).rows.map (fun r => (r.id, r.created_at))
        = tbl.rows.map (fun r => (r.id, r.created_at)) ++ extra := by
  induction ops with
  | nil => intro tbl; exact ⟨[], by simp [runWrites]⟩
  | cons op ops ih =>
    intro tbl
    obtain ⟨extra, he⟩ := ih (fun id d h => hops id d (List.mem_cons_of_mem _ h))
      (applyWrite dbNow tbl op)
    rw [runWrites_cons, he]
    cases op with
    | insert d =>
      exact ⟨((newRow dbNow tbl.nextId d).id, (newRow dbNow tbl.nextId d).created_at) :: extra,
        by simp [applyWrite]⟩
    | update id d =>
      refine ⟨extra, ?_⟩
      have hd := hops id d (List.mem_cons_self _ _)
      congr 1
      simp only [applyWrite, List.map_map]
      apply List.map_congr_left
      intro r _
      by_cases h : r.id = id <;> simp [h, setColumns, hd]

theorem runWrites_keys (dbNow : Time) (N : Nat) (ops : List Write)
    (hops : ∀ id d, Write.update id d ∈ ops → d.created_at = none ∧ id < N) :
    ∀ tbl : Table, N ≤ tbl.nextId →
      (∀ r ∈ tbl.rows, ∀ id d, Write.update id d ∈ ops → r.id = id →
        r.warehouse_name = d.warehouse_name) →
      (runWrites dbNow tbl ops).rows.map rowKey
        = tbl.rows.map rowKey ++ (insertedOf dbNow tbl.nextId ops).map rowKey := by
  induction ops with
  | nil => intro tbl _ _; simp [runWrites, insertedOf]
  | cons op ops ih =>
    intro tbl hN hI
    have hops2 : ∀ id d, Write.update id d ∈ ops → d.created_at = none ∧ id < N :=
      fun id d h => hops id d (List.mem_cons_of_mem _ h)
    rw [runWrites_cons]
    cases op with
    | insert d =>
      rw [ih hops2 (applyWrite dbNow tbl (Write.insert d)) (by simp [applyWrite]; omega)]
      · simp [applyWrite, insertedOf]
      · intro r hr id d2 hmem hid
        simp only [applyWrite, List.mem_append, List.mem_singleton] at hr
        rcases hr with hr | hr
        · exact hI r hr id d2 (List.mem_cons_of_mem _ hmem) hid
        · have := (hops2 id d2 hmem).2
          rw [hr] at hid
          simp only [newRow] at hid
          omega
    | update id d =>
      have hd := hops id d (List.mem_cons_self _ _)
      have hkeys : (applyWrite dbNow tbl (Write.update id d)).rows.map rowKey
          = tbl.rows.map rowKey := by
        simp only [applyWrite, List.map_map]
        apply List.map_congr_left
        intro r hr
        by_cases h : r.id = id
        · have := hI r hr id d (List.mem_cons_self _ _) h
          simp [h, setColumns, rowKey, hd.1, this]
        · simp [h]
      rw [ih hops2 (applyWrite dbNow tbl (Write.update id d)) (by simpa [applyWrite] using hN)]
      · rw [hkeys]
        simp [applyWrite, insertedOf]
      · intro r hr id2 d2 hmem hid
        simp only [applyWrite, List.mem_map] at hr
        obtain ⟨r0, hr0, rfl⟩ := hr
        have h0 := hI r0 hr0 id2 d2 (List.mem_cons_of_mem _ hmem)
        by_cases h : r0.id = id
        · have hn := hI r0 hr0 id d (List.mem_cons_self _ _) h
          simp only [h, if_true, setColumns] at hid ⊢
          rw [← hn]
          exact h0 (h.trans hid)
        · simp only [h, if_false] at hid ⊢
          exact h0 hid

theorem existingRecords_mem (dbDate : Time → Nat) (today : Time) (tbl : Table) (r : Row) :
    r ∈ existingRecords dbDate today tbl ↔
      r ∈ tbl.rows ∧ dbDate r.created_at = formattedDate today := by
  simp [existingRecords]

theorem plan_updates (dbDate : Time → Nat) (today : Time) (dt : String) (tbl : Table) (hc : tbl.Consistent)
    (ws : List Warehouse) (id : Nat) (d : TariffData)
    (h : Write.update id d ∈ ws.map (writeFor today dt (existingRecords dbDate today tbl))) :
    (d.created_at = none ∧ id < tbl.nextId) ∧
      ∀ r ∈ tbl.rows, r.id = id → r.warehouse_name = d.warehouse_name := by
  obtain ⟨w, -, hw⟩ := List.mem_map.mp h
  obtain ⟨hd, r0, hfind, hid⟩ := writeFor_update _ _ _ _ _ _ hw
  have hmem := (existingRecords_mem dbDate today tbl r0).mp (List.mem_of_find?_eq_some hfind)
  have hname : r0.warehouse_name = w.warehouseName := by simpa using List.find?_some hfind
  subst hd
  refine ⟨⟨rfl, hid ▸ hc.2 r0 hmem.1⟩, ?_⟩
  intro r hr hrid
  have : r = r0 := List.inj_on_of_nodup_map hc.1 hr hmem.1 (hrid.trans hid.symm)
  rw [this, hname]
  rfl

theorem plan_keys (dbDate : Time → Nat) (dbNow today : Time) (dt : String) (tbl : Table) (hc : tbl.Consistent)
    (ws : List Warehouse) :
    (runWrites dbNow tbl (ws.map (writeFor today dt (existingRecords dbDate today tbl)))).rows.map rowKey
      = tbl.rows.map rowKey ++
        (insertedOf dbNow tbl.nextId
          (ws.map (writeFor today dt (existingRecords dbDate today tbl)))).map rowKey :=
  runWrites_keys dbNow tbl.nextId _
    (fun id d h => (plan_updates dbDate today dt tbl hc ws id d h).1) tbl (Nat.le_refl _)
    (fun r hr id d h hid => (plan_updates dbDate today dt tbl hc ws id d h).2 r hr hid)

theorem unmatched_iff (ex : List Row) (w : Warehouse) :
    unmatched ex w = true ↔ ∀ r ∈ ex, r.warehouse_name ≠ w.warehouseName := by
  simp [unmatched]

theorem insertedOf_plan (dbNow today : Time) (dt : String) (ex : List Row)
    (ws : List Warehouse) : ∀ n : Nat,
    (insertedOf dbNow n (ws.map (writeFor today dt ex))).map
        (fun r => (r.warehouse_name, r.created_at))
      = (ws.filter (unmatched ex)).map (fun w => (w.warehouseName, today)) := by
  induction ws with
  | nil => intro n; rfl
  | cons w ws ih =>
    intro n
    by_cases hm : unmatched ex w = true
    · rw [List.map_cons, writeFor_of_no_match today dt ex w ((unmatched_iff ex w).mp hm)]
      simp [insertedOf, hm, ih, newRow, tariffDataOf]
    · have hex : ∃ r ∈ ex, r.warehouse_name = w.warehouseName := by
        by_contra hno
        exact hm ((unmatched_iff ex w).mpr (fun r hr hn => hno ⟨r, hr, hn⟩))
      obtain ⟨r, -, -, hwf⟩ := writeFor_of_match today dt ex w hex
      rw [List.map_cons, hwf]
      simp [insertedOf, hm, ih]

theorem plan_inserted (dbDate : Time → Nat) (dbNow today : Time) (dt : String) (tbl : Table) (hc : tbl.Consistent)
    (ws : List Warehouse) :
    (insertedRows tbl
        (runWrites dbNow tbl (ws.map (writeFor today dt (existingRecords dbDate today tbl))))).map
        (fun r => (r.warehouse_name, r.created_at))
      = (ws.filter (unmatched (existingRecords dbDate today tbl))).map
          (fun w => (w.warehouseName, today)) := by
  have hk := plan_keys dbDate dbNow today dt tbl hc ws
  have hdrop := congrArg (List.drop tbl.rows.length) hk
  rw [List.drop_left' (by simp)] at hdrop
  rw [← insertedOf_plan dbNow today dt (existingRecords dbDate today tbl) ws tbl.nextId]
  have := congrArg (List.map (fun k : Nat × String × Time => (k.2.1, k.2.2))) hdrop
  simpa [insertedRows, List.map_drop, rowKey, Function.comp_def] using this

theorem plan_name_day (dbDate day : Time → Nat) (dbNow today : Time) (dt : String)
    (tbl : Table) (hc : tbl.Consistent) (ws : List Warehouse) :
    (runWrites dbNow tbl (ws.map (writeFor today dt (existingRecords dbDate today tbl)))).rows.map
        (fun r => (r.warehouse_name, day r.created_at))
      = tbl.rows.map (fun r => (r.warehouse_name, day r.created_at)) ++
        (ws.filter (unmatched (existingRecords dbDate today tbl))).map
          (fun w => (w.warehouseName, day today)) := by
  have hk := plan_keys dbDate dbNow today dt tbl hc ws
  have h1 := congrArg (List.map (fun k : Nat × String × Time => (k.2.1, day k.2.2))) hk
  have h2 := congrArg (List.map (fun k : String × Time => (k.1, day k.2)))
    (insertedOf_plan dbNow today dt (existingRecords dbDate today tbl) ws tbl.nextId)
  simp only [List.map_append, List.map_map, rowKey, Function.comp_def] at h1 h2
  rw [h1, h2]

theorem insertedOf_ids (dbNow : Time) (ops : List Write) : ∀ n : Nat,
    (insertedOf dbNow n ops).map (fun r => r.id)
      = List.range' n (insertedOf dbNow n ops).length := by
  induction ops with
  | nil => intro n; rfl
  | cons op ops ih =>
    intro n
    cases op with
    | insert d => simp [insertedOf, ih (n + 1), List.range'_succ, newRow]
    | update id d => simpa [insertedOf] using ih n

theorem runWrites_nextId (dbNow : Time) (ops : List Write) : ∀ tbl : Table,
    (runWrites dbNow tbl ops).nextId
      = tbl.nextId + (insertedOf dbNow tbl.nextId ops).length := by
  induction ops with
  | nil => intro tbl; rfl
  | cons op ops ih =>
    intro tbl
    rw [runWrites_cons, ih]
    cases op with
    | insert d => simp [applyWrite, insertedOf]; omega
    | update id d => simp [applyWrite, insertedOf]

theorem plan_consistent (dbDate : Time → Nat) (dbNow today : Time) (dt : String) (tbl : Table) (hc : tbl.Consistent)
    (ws : List Warehouse) :
    (runWrites dbNow tbl
      (ws.map (writeFor today dt (existingRecords dbDate today tbl)))).Consistent := by
  have hk := plan_keys dbDate dbNow today dt tbl hc ws
  have hids := congrArg (List.map (fun k : Nat × String × Time => k.1)) hk
  simp only [List.map_append, List.map_map, rowKey, Function.comp_def] at hids
  rw [insertedOf_ids] at hids
  have hold : ∀ x ∈ tbl.rows.map (fun r => r.id), x < tbl.nextId := by
    intro x hx
    obtain ⟨r, hr, rfl⟩ := List.mem_map.mp hx
    exact hc.2 r hr
  constructor
  · rw [hids, List.nodup_append]
    refine ⟨hc.1, List.nodup_range' _ _, ?_⟩
    intro x hx1 hx2
    have h1 := hold x hx1
    have h2 := (List.mem_range'_1.mp hx2).1
    omega
  · intro r hr
    have hmem : r.id ∈ (runWrites dbNow tbl
        (ws.map (writeFor today dt (existingRecords dbDate today tbl)))).rows.map (fun r => r.id) :=
      List.mem_map.mpr ⟨r, hr, rfl⟩
    rw [hids, List.mem_append] at hmem
    rw [runWrites_nextId]
    rcases hmem with h | h
    · have := hold _ h
      omega
    · exact (List.mem_range'_1.mp h).2

theorem count_unmatched (ex : List Row) (name : String)
    (habs : ∀ r ∈ ex, r.warehouse_name ≠ name) (ws : List Warehouse) :
    (((ws.filter (unmatched ex)).map (fun w => w.warehouseName)).count name)
      = (ws.map (fun w => w.warehouseName)).count name := by
  induction ws with
  | nil => rfl
  | cons w ws ih =>
    by_cases hn : w.warehouseName = name
    · have hm : unmatched ex w = true := (unmatched_iff ex w).mpr (fun r hr => hn ▸ habs r hr)
      simp [List.filter_cons, hm, List.count_cons, ih]
    · by_cases hm : unmatched ex w = true
      · simp [List.filter_cons, hm, List.count_cons, hn, ih]
      · simp [List.filter_cons, hm, List.count_cons, hn, ih]

theorem updateTariffs_ok (env : SyncEnv) (tbl : Table) (payload : Payload)
    (hfetch : env.fetch = Except.ok payload) (hsel : env.selectErr = none)
    (hw : ∀ j, j < payload.warehouseList.length → env.writeErr j = none) :
    (updateTariffs env tbl).table
        = runWrites env.dbNow tbl (payload.warehouseList.map
            (writeFor env.today payload.dtTillMax (existingRecords env.dbDate env.today tbl))) ∧
      (updateTariffs env tbl).writes
        = payload.warehouseList.map
            (writeFor env.today payload.dtTillMax (existingRecords env.dbDate env.today tbl)) := by
  have hloop := syncLoop_ok env payload.dtTillMax (existingRecords env.dbDate env.today tbl)
    payload.warehouseList 0 tbl [] (fun j hj => by simpa using hw j hj)
  unfold updateTariffs
  simp only [hfetch, hsel]
  rw [hloop]
  simp

theorem updateTariffs_shape (env : SyncEnv) (tbl : Table) (payload : Payload)
    (hfetch : env.fetch = Except.ok payload) :
    ∃ k k2, (updateTariffs env tbl).table
        = runWrites env.dbNow tbl ((payload.warehouseList.take k).map
            (writeFor env.today payload.dtTillMax (existingRecords env.dbDate env.today tbl))) ∧
      (updateTariffs env tbl).writes
        = (payload.warehouseList.take k2).map
            (writeFor env.today payload.dtTillMax (existingRecords env.dbDate env.today tbl)) := by
  unfold updateTariffs
  simp only [hfetch]
  cases hsel : env.selectErr with
  | some e => exact ⟨0, 0, by simp [runWrites]⟩
  | none =>
    obtain ⟨k, k2, h1, h2⟩ := syncLoop_shape env payload.dtTillMax
      (existingRecords env.dbDate env.today tbl) payload.warehouseList 0 tbl []
    rw [List.nil_append] at h2
    refine ⟨k, k2, ?_⟩
    simp only
    split <;> exact ⟨h1, h2⟩

theorem updateTariffs_fetch_error (env : SyncEnv) (tbl : Table) (e : Err)
    (hfetch : env.fetch = Except.error e) :
    (updateTariffs env tbl).table = tbl ∧ (updateTariffs env tbl).writes = [] := by
  unfold updateTariffs
  simp [hfetch]

theorem syncLoop_writes_get (env : SyncEnv) (dt : String) (ex : List Row) (w : Warehouse)
    (ws : List Warehouse) :
    ∀ (i i0 : Nat) (tbl : Table) (sent : List Write),
    (∀ j, j < i → env.writeErr (i0 + j) = none) → ws[i]? = some w →
    (syncLoop env dt ex i0 ws tbl sent).writes[sent.length + i]?
      = some (writeFor env.today dt ex w) := by
  induction ws with
  | nil => intro i i0 tbl sent _ hw; simp at hw
  | cons w0 ws ih =>
    intro i i0 tbl sent hreach hw
    unfold syncLoop
    cases i with
    | zero =>
      have hw0 : w0 = w := by simpa using hw
      subst hw0
      cases env.writeErr i0 with
      | some e => simp
      | none =>
        obtain ⟨_, k2, -, h2⟩ := syncLoop_shape env dt ex ws (i0 + 1)
          (applyWrite env.dbNow tbl (writeFor env.today dt ex w0))
          (sent ++ [writeFor env.today dt ex w0])
        simp only [h2, List.append_assoc, Nat.add_zero]
        rw [List.getElem?_append_right (Nat.le_refl _)]
        simp
    | succ i =>
      have h0 : env.writeErr i0 = none := by simpa using hreach 0 (by simp)
      simp only [h0]
      have := ih i (i0 + 1) (applyWrite env.dbNow tbl (writeFor env.today dt ex w0))
        (sent ++ [writeFor env.today dt ex w0])
        (fun j hj => by
          have := hreach (j + 1) (by omega)
          rwa [Nat.add_assoc, Nat.add_comm 1 j])
        (by simpa using hw)
      rw [← this]
      congr 1
      simp
      omega

theorem updateTariffs_keeps_id_created (env : SyncEnv) (tbl : Table) :
    ((updateTariffs env tbl).table.rows.take tbl.rows.length).map (fun r => (r.id, r.created_at))
      = tbl.rows.map (fun r => (r.id, r.created_at)) := by
  cases hfetch : env.fetch with
  | error e => simp [(updateTariffs_fetch_error env tbl e hfetch).1]
  | ok payload =>
    obtain ⟨k, -, hk, -⟩ := updateTariffs_shape env tbl payload hfetch
    obtain ⟨extra, he⟩ := runWrites_id_created env.dbNow
      ((payload.warehouseList.take k).map
        (writeFor env.today payload.dtTillMax (existingRecords env.dbDate env.today tbl)))
      (fun id d h => by
        obtain ⟨w, -, hw⟩ := List.mem_map.mp h
        rw [(writeFor_update _ _ _ _ _ _ hw).1]
        rfl) tbl
    rw [hk, List.map_take, he]
    exact List.take_left' (by simp)

/-! ## Lemmas on the exporter -/

theorem exportToGoogleSheet_reaches_query (env : SheetsEnv) (hauth : env.authErr = none)
    (hensure : env.probeErr = none ∨ env.addSheetErr = none) :
    (exportToGoogleSheet env).thrown = (exportRows env).thrown ∧
      (exportToGoogleSheet env).requests =
        ((deleteSheetByName env "Лист1").requests ++
          SheetRequest.valuesGet "stocks_coefs!A1" ::
            (if env.probeErr = none then [] else [SheetRequest.addSheet "stocks_coefs"])) ++
          (exportRows env).requests := by
  have hname : SHEET_NAME ++ "!A1" = "stocks_coefs!A1" := by decide
  unfold exportToGoogleSheet
  rw [hname]
  simp only [hauth]
  cases hp : env.probeErr with
  | none => simp
  | some e =>
    have hadd : env.addSheetErr = none := by
      rcases hensure with h | h
      · rw [hp] at h; exact Option.noConfusion h
      · exact h
    simp [hadd, SHEET_NAME]

theorem deleteSheetByName_requests (env : SheetsEnv) (name : String) :
    ∀ q ∈ (deleteSheetByName env name).requests,
      q = SheetRequest.spreadsheetsGet ∨
        ∃ sheets s, env.sheetsAtDelete = Except.ok sheets ∧ s ∈ sheets ∧ s.title = name ∧
          q = SheetRequest.deleteSheet s.sheetId := by
  intro q hq
  unfold deleteSheetByName at hq
  cases hs : env.sheetsAtDelete with
  | error e =>
    simp only [hs, List.mem_singleton] at hq
    exact Or.inl hq
  | ok sheets =>
    simp only [hs] at hq
    cases hf : sheets.find? (fun s => decide (s.title = name)) with
    | none =>
      simp only [hf, List.mem_singleton] at hq
      exact Or.inl hq
    | some s =>
      simp only [hf, List.mem_cons, List.mem_singleton, List.not_mem_nil, or_false] at hq
      rcases hq with hq | hq
      · exact Or.inl hq
      · exact Or.inr ⟨sheets, s, rfl, List.mem_of_find?_eq_some hf,
          by simpa using List.find?_some hf, hq⟩

theorem deleteSheetByName_no_values (env : SheetsEnv) (name : String) :
    ∀ q ∈ (deleteSheetByName env name).requests, q.touchesValues = false := by
  intro q hq
  rcases deleteSheetByName_requests env name q hq with h | ⟨_, _, _, _, _, h⟩ <;> rw [h] <;> rfl

theorem getProperty_of_mem (row : JSObject) (hkeys : (row.map (fun kv => kv.1)).Nodup) :
    ∀ kv ∈ row, getProperty row kv.1 = kv.2 := by
  induction row with
  | nil => intro kv hkv; simp at hkv
  | cons head tail ih =>
    intro kv hkv
    rw [List.map_cons, List.nodup_cons] at hkeys
    rcases List.mem_cons.mp hkv with h | h
    · subst h
      simp [getProperty]
    · have hne : head.1 ≠ kv.1 := by
        intro heq
        exact hkeys.1 (heq ▸ List.mem_map.mpr ⟨kv, h, rfl⟩)
      have := ih hkeys.2 kv h
      unfold getProperty at this ⊢
      rw [List.find?_cons]
      simpa [hne] using this

theorem writeSheet_requests (env : SheetsEnv) (first : JSObject) (data : List JSObject)
    (hclear : env.clearErr = none) :
    ∃ post, (writeSheet env first data).requests =
        SheetRequest.valuesClear "stocks_coefs!A:Z" ::
          SheetRequest.valuesUpdate "stocks_coefs!A1" (sheetMatrix env first data) :: post ∧
      ∀ q ∈ post, q.touchesValues = false := by
  have h1 : SHEET_NAME ++ "!A:Z" = "stocks_coefs!A:Z" := by decide
  have h2 : SHEET_NAME ++ "!A1" = "stocks_coefs!A1" := by decide
  unfold writeSheet
  rw [h1, h2]
  simp only [hclear]
  cases env.updateErr with
  | some e => exact ⟨[], rfl, by simp⟩
  | none =>
    simp only
    cases getSheetId env SHEET_NAME with
    | error e => exact ⟨[SheetRequest.spreadsheetsGet], rfl, by simp [SheetRequest.touchesValues]⟩
    | ok sheetId => exact ⟨_, rfl, by simp [SheetRequest.touchesValues]⟩

/-! ## The claims -/

/-- C1 (amended): against a consistent table, when the fetch and the select
succeed and no write fails, a warehouse name that matches none of today's
existing rows gets exactly as many new rows as it has occurrences in
`warehouseList` (one when it occurs once), and every row inserted by the run
has `created_at` equal to the run's `today`. -/
theorem updateTariffs_inserts_unmatched (env : SyncEnv) (tbl : Table) (payload : Payload)
    (name : String) (hc : tbl.Consistent)
    (hfetch : env.fetch = Except.ok payload) (hsel : env.selectErr = none)
    (hw : ∀ j, j < payload.warehouseList.length → env.writeErr j = none)
    (habs : ∀ r ∈ existingRecords env.dbDate env.today tbl, r.warehouse_name ≠ name) :
    ((insertedRows tbl (updateTariffs env tbl).table).map (fun r => r.warehouse_name)).count name
        = (payload.warehouseList.map (fun w => w.warehouseName)).count name ∧
      ∀ r ∈ insertedRows tbl (updateTariffs env tbl).table, r.created_at = env.today := by
  have hpl := plan_inserted env.dbDate env.dbNow env.today payload.dtTillMax tbl hc payload.warehouseList
  rw [(updateTariffs_ok env tbl payload hfetch hsel hw).1]
  constructor
  · have h1 := congrArg (List.map (fun k : String × Time => k.1)) hpl
    simp only [List.map_map, Function.comp_def] at h1
    rw [h1]
    exact count_unmatched _ name habs _
  · intro r hr
    have hmem : (r.warehouse_name, r.created_at) ∈
        (payload.warehouseList.filter (unmatched (existingRecords env.dbDate env.today tbl))).map
          (fun w => (w.warehouseName, env.today)) := by
      rw [← hpl]
      exact List.mem_map.mpr ⟨r, hr, rfl⟩
    obtain ⟨w, -, hw2⟩ := List.mem_map.mp hmem
    exact (congrArg Prod.snd hw2).symm

/-- C1, witness: a fetch of warehouses `A` and `B` into an empty table inserts
one row named `A`, created at the run's instant. -/
theorem updateTariffs_inserts_unmatched_witness :
    ((insertedRows emptyTable
        (updateTariffs (sampleEnv 5 [sampleWarehouse "A", sampleWarehouse "B"])
          emptyTable).table).map (fun r => r.warehouse_name)).count "A" = 1 ∧
      ∀ r ∈ insertedRows emptyTable
        (updateTariffs (sampleEnv 5 [sampleWarehouse "A", sampleWarehouse "B"]) emptyTable).table,
        r.created_at = 5 :=
  updateTariffs_inserts_unmatched (sampleEnv 5 [sampleWarehouse "A", sampleWarehouse "B"])
    emptyTable { dtTillMax := "2025-07-20",
                 warehouseList := [sampleWarehouse "A", sampleWarehouse "B"] } "A"
    (by decide) rfl rfl (fun _ _ => rfl) (by simp [existingRecords, emptyTable])

/-- C1, counterexample: the name `A` occurs in the response and matches no
existing row, yet the run inserts two rows named `A`, not one. -/
theorem updateTariffs_duplicate_name_two_inserts :
    "A" ∈ [sampleWarehouse "A", sampleWarehouse "A"].map (fun w => w.warehouseName) ∧
      (∀ r ∈ existingRecords formattedDate 5 emptyTable, r.warehouse_name ≠ "A") ∧
      ((insertedRows emptyTable
        (updateTariffs (sampleEnv 5 [sampleWarehouse "A", sampleWarehouse "A"])
          emptyTable).table).map (fun r => r.warehouse_name)).count "A" = 2 := by
  refine ⟨by decide, by simp [existingRecords, emptyTable], by decide⟩

/-- C2: when the `i`-th warehouse of the response is reached and its name is
the `warehouse_name` of one of today's existing rows, the statement sent for
it is an update addressed by the `id` of such a row, carrying the name, the
five parsed numeric fields, `dtTillMax` and `updated_at = today` and neither
`id` nor `created_at` (hence no insert is sent for it); and whatever the run
does, every row present before the run keeps its `id` and `created_at`. -/
theorem updateTariffs_updates_matched (env : SyncEnv) (tbl : Table) (payload : Payload)
    (i : Nat) (w : Warehouse)
    (hfetch : env.fetch = Except.ok payload) (hsel : env.selectErr = none)
    (hreach : ∀ j, j < i → env.writeErr j = none)
    (hw : payload.warehouseList[i]? = some w)
    (hmatch : ∃ r ∈ existingRecords env.dbDate env.today tbl, r.warehouse_name = w.warehouseName) :
    (∃ r ∈ existingRecords env.dbDate env.today tbl, r.warehouse_name = w.warehouseName ∧
      (updateTariffs env tbl).writes[i]? = some (Write.update r.id
        { warehouse_name := w.warehouseName
          delivery_expr := parseNumber w.boxDeliveryAndStorageExpr
          delivery_base := parseNumber w.boxDeliveryBase
          delivery_liter := parseNumber w.boxDeliveryLiter
          storage_base := parseNumber w.boxStorageBase
          storage_liter := parseNumber w.boxStorageLiter
          dtTillMax := payload.dtTillMax
          updated_at := env.today
          created_at := none })) ∧
      ((updateTariffs env tbl).table.rows.take tbl.rows.length).map
          (fun r => (r.id, r.created_at))
        = tbl.rows.map (fun r => (r.id, r.created_at)) := by
  refine ⟨?_, updateTariffs_keeps_id_created env tbl⟩
  obtain ⟨r, hr, hname, hwf⟩ :=
    writeFor_of_match env.today payload.dtTillMax (existingRecords env.dbDate env.today tbl) w hmatch
  refine ⟨r, hr, hname, ?_⟩
  have hget := syncLoop_writes_get env payload.dtTillMax (existingRecords env.dbDate env.today tbl) w
    payload.warehouseList i 0 tbl [] (fun j hj => by simpa using hreach j hj) hw
  rw [hwf] at hget
  have hwr : (updateTariffs env tbl).writes
      = (syncLoop env payload.dtTillMax (existingRecords env.dbDate env.today tbl) 0
          payload.warehouseList tbl []).writes := by
    unfold updateTariffs
    simp only [hfetch, hsel]
    split <;> rfl
  rw [hwr]
  simpa [tariffDataOf] using hget

/-- C2, witness: with a row for `A` present today, a fetch of `A` sends an
update addressed by that row's id. -/
theorem updateTariffs_updates_matched_witness :
    (∃ r ∈ existingRecords formattedDate 5 oneRowTable, r.warehouse_name = "A" ∧
      (updateTariffs (sampleEnv 5 [sampleWarehouse "A"]) oneRowTable).writes[0]?
        = some (Write.update r.id
          { warehouse_name := "A"
            delivery_expr := parseNumber "-"
            delivery_base := parseNumber "-"
            delivery_liter := parseNumber "-"
            storage_base := parseNumber "-"
            storage_liter := parseNumber "-"
            dtTillMax := "2025-07-20"
            updated_at := 5
            created_at := none })) ∧
      ((updateTariffs (sampleEnv 5 [sampleWarehouse "A"]) oneRowTable).table.rows.take
          oneRowTable.rows.length).map (fun r => (r.id, r.created_at))
        = oneRowTable.rows.map (fun r => (r.id, r.created_at)) :=
  updateTariffs_updates_matched (sampleEnv 5 [sampleWarehouse "A"]) oneRowTable
    { dtTillMax := "2025-07-20", warehouseList := [sampleWarehouse "A"] } 0
    (sampleWarehouse "A") rfl rfl (fun _ hj => absurd hj (Nat.not_lt_zero _)) rfl
    ⟨sampleRow 7 "A" 3, by decide, rfl⟩

/-- C3 (amended): the calendar day of a row being the database session's date
of `created_at`; against a table whose ids are unique and drawn from the
sequence, for a response whose warehouse names are pairwise distinct, and for
a run at an instant whose date in the session time zone is its UTC date
(always so in a UTC session), one call of `updateTariffs` (whether it
completes or stops at a failure) preserves `at most one row per
(warehouse_name, calendar day of created_at)`; the table afterwards again has
unique ids drawn from the sequence. -/
theorem updateTariffs_preserves_onePerDay (env : SyncEnv) (tbl : Table)
    (hc : tbl.Consistent)
    (hdistinct : ∀ payload, env.fetch = Except.ok payload →
      (payload.warehouseList.map (fun w => w.warehouseName)).Nodup)
    (hzone : env.dbDate env.today = formattedDate env.today)
    (hinv : OnePerDay env.dbDate tbl.rows) :
    OnePerDay env.dbDate (updateTariffs env tbl).table.rows ∧
      (updateTariffs env tbl).table.Consistent := by
  cases hfetch : env.fetch with
  | error e => rw [(updateTariffs_fetch_error env tbl e hfetch).1]; exact ⟨hinv, hc⟩
  | ok payload =>
    obtain ⟨k, -, hk, -⟩ := updateTariffs_shape env tbl payload hfetch
    have hnames : ((payload.warehouseList.take k).map (fun w => w.warehouseName)).Nodup :=
      (hdistinct payload hfetch).sublist ((List.take_sublist _ _).map _)
    rw [hk]
    refine ⟨?_, plan_consistent env.dbDate env.dbNow env.today payload.dtTillMax tbl hc _⟩
    unfold OnePerDay at hinv ⊢
    rw [plan_name_day env.dbDate env.dbDate env.dbNow env.today payload.dtTillMax tbl hc,
      List.nodup_append]
    refine ⟨hinv, ?_, ?_⟩
    · have hsub : (((payload.warehouseList.take k).filter
          (unmatched (existingRecords env.dbDate env.today tbl))).map
            (fun w => w.warehouseName)).Nodup :=
        hnames.sublist ((List.filter_sublist _).map _)
      have := hsub.map (f := fun n : String => (n, env.dbDate env.today))
        (fun a b h => congrArg Prod.fst h)
      simpa [List.map_map, Function.comp_def] using this
    · intro x hx1 hx2
      obtain ⟨r, hr, rfl⟩ := List.mem_map.mp hx1
      obtain ⟨w, hw, hwx⟩ := List.mem_map.mp hx2
      have hun := (unmatched_iff _ w).mp (List.mem_filter.mp hw).2
      have h1 : w.warehouseName = r.warehouse_name := congrArg Prod.fst hwx
      have h2 : env.dbDate env.today = env.dbDate r.created_at := congrArg Prod.snd hwx
      exact hun r ((existingRecords_mem _ _ _ _).mpr ⟨hr, by rw [← h2, hzone]⟩) h1.symm

/-- C3, witness: in a session three hours east of UTC, a fetch at 10:00 UTC of
the distinct names `A` and `B` into a table that holds the morning's row for
`A`: the row for `A` is found and updated, one row is added for `B`. -/
theorem updateTariffs_preserves_onePerDay_witness :
    OnePerDay (dateAtOffset 10800000) morningRowTable.rows ∧
      OnePerDay (dateAtOffset 10800000)
        (updateTariffs (eastEnv 1752660000000 [sampleWarehouse "A", sampleWarehouse "B"])
          morningRowTable).table.rows ∧
      (updateTariffs (eastEnv 1752660000000 [sampleWarehouse "A", sampleWarehouse "B"])
        morningRowTable).table.rows.map (fun r => r.warehouse_name) = ["A", "B"] :=
  ⟨by decide,
    (updateTariffs_preserves_onePerDay
      (eastEnv 1752660000000 [sampleWarehouse "A", sampleWarehouse "B"])
      morningRowTable (by decide)
      (fun payload h => by
        cases h
        decide)
      (by decide) (by decide)).1,
    by decide⟩

/-- C3, counterexample: (1) in a UTC session the response lists the name `A`
twice: the empty table satisfies the invariant before the run and the table
after the run does not; (2) in a session three hours east of UTC the response
lists `A` once, the table holds the row for `A` created at 21:30 UTC and the
run is at 22:00 UTC the same day: the query compares the session's date of
`created_at` (17 July) with the UTC date of the run (16 July), finds no row and
the run inserts a second row for `A`, on the same day by either calendar. -/
theorem updateTariffs_duplicate_name_breaks_onePerDay :
    (OnePerDay formattedDate emptyTable.rows ∧
      ¬ OnePerDay formattedDate
        (updateTariffs (sampleEnv 5 [sampleWarehouse "A", sampleWarehouse "A"])
          emptyTable).table.rows) ∧
    (OnePerDay (dateAtOffset 10800000) lateRowTable.rows ∧
      OnePerDay formattedDate lateRowTable.rows ∧
      ¬ OnePerDay (dateAtOffset 10800000)
        (updateTariffs (eastEnv 1752703200000 [sampleWarehouse "A"]) lateRowTable).table.rows ∧
      ¬ OnePerDay formattedDate
        (updateTariffs (eastEnv 1752703200000 [sampleWarehouse "A"]) lateRowTable).table.rows) := by
  refine ⟨⟨?_, ?_⟩, ?_, ?_, ?_, ?_⟩ <;> decide

/-- C4: `parseNumber` returns `null` exactly for the string `-`; and for a
string made of decimal digits `a`, one comma and decimal digits `b` (with a
digit on at least one side) it returns the JavaScript number for the decimal
`a.b`, the comma read as the decimal point: the Number value (nearest double)
of the positional value of the digits, which is that value itself whenever the
value is a double (a significand below `2 ^ 53` on the binary64 grid, below
`2 ^ 1024`). -/
theorem parseNumber_comma_decimal (s : String) (a b : List Char)
    (ha : ∀ c ∈ a, isDecimalDigit c = true) (hb : ∀ c ∈ b, isDecimalDigit c = true)
    (hne : a ≠ [] ∨ b ≠ []) :
    (parseNumber s = none ↔ s = "-") ∧
      parseNumber (String.mk (a ++ ',' :: b))
        = some (roundMV false (commaAsDecimalPoint a b)) ∧
      (∀ (n : Nat) (k : Int), commaAsDecimalPoint a b = (n : ℚ) * (2 : ℚ) ^ k →
        0 < n → n < 2 ^ 53 → ((2 ^ 52 ≤ n ∧ -1074 ≤ k) ∨ k = -1074) →
        commaAsDecimalPoint a b < (2 : ℚ) ^ 1024 →
        parseNumber (String.mk (a ++ ',' :: b))
          = some (JSNumber.finite false (commaAsDecimalPoint a b))) := by
  refine ⟨parseNumber_null_iff s, ?_⟩
  suffices hmain : parseNumber (String.mk (a ++ ',' :: b))
      = some (roundMV false (commaAsDecimalPoint a b)) by
    refine ⟨hmain, ?_⟩
    intro n k hx hn0 hn hgrid hmax
    rw [hmain, roundMV_exact false _ n k hx hn0 hn hgrid hmax]
  have hstr : String.mk (a ++ ',' :: b) ≠ "-" := by
    intro h
    have h2 : a ++ ',' :: b = ['-'] := congrArg String.data h
    have hmem : ',' ∈ a ++ ',' :: b := by simp
    rw [h2] at hmem
    revert hmem
    decide
  have hhead : ∃ c rest, a ++ '.' :: b = c :: rest ∧ isStrWhiteSpaceChar c = false ∧
      c ≠ '+' ∧ c ≠ '-' := by
    cases a with
    | nil => exact ⟨'.', b, rfl, by decide, by decide, by decide⟩
    | cons c a =>
      have hc := ha c (List.mem_cons_self _ _)
      exact ⟨c, a ++ '.' :: b, rfl, digit_not_white c hc,
        digit_ne c '+' hc (by decide), digit_ne c '-' hc (by decide)⟩
  obtain ⟨c, rest, hcr, hws, hplus, hminus⟩ := hhead
  unfold parseNumber
  rw [if_neg hstr]
  show some (parseFloat (replaceFirst ',' '.' (a ++ ',' :: b))) = _
  rw [replaceFirst_digits_append a b ha, hcr, parseFloat_unsigned c rest hws hplus hminus,
    ← hcr, scan_digits_point_digits false a b ha hb hne, commaAsDecimalPoint,
    integerPartValue_eq, fractionPartValue_eq]

/-- C4, witness: `"12,50"` gives 12.5 exactly, `"0,1"` gives the double nearest
to one tenth, and 400 nines before the comma give `Infinity`. -/
theorem parseNumber_comma_decimal_witness :
    (parseNumber "-" = none ↔ "-" = "-") ∧
      parseNumber "12,50" = some (JSNumber.finite false (25 / 2)) ∧
      parseNumber "0,1"
        = some (JSNumber.finite false (3602879701896397 / 36028797018963968)) ∧
      parseNumber (String.mk (List.replicate 400 '9' ++ ',' :: ['0']))
        = some (JSNumber.infinity false) := by
  have h := parseNumber_comma_decimal "-" ['1', '2'] ['5', '0'] (by decide) (by decide)
    (Or.inl (by decide))
  have h2 := (parseNumber_comma_decimal "-" ['0'] ['1'] (by decide) (by decide)
    (Or.inl (by decide))).2.1
  have h3 := (parseNumber_comma_decimal "-" (List.replicate 400 '9') ['0']
    (fun c hc => by rw [List.eq_of_mem_replicate hc]; decide) (by decide)
    (Or.inr (by decide))).2.1
  have hv : roundMV false (commaAsDecimalPoint ['1', '2'] ['5', '0'])
      = JSNumber.finite false (25 / 2) := by decide!
  have hv2 : roundMV false (commaAsDecimalPoint ['0'] ['1'])
      = JSNumber.finite false (3602879701896397 / 36028797018963968) := by decide!
  have hv3 : roundMV false (commaAsDecimalPoint (List.replicate 400 '9') ['0'])
      = JSNumber.infinity false := by decide!
  have h1 := h.2.1
  rw [hv] at h1
  rw [hv2] at h2
  rw [hv3] at h3
  exact ⟨h.1, h1, h2, h3⟩

/-- C5 (amended): when authentication succeeds, the target sheet exists or is
created, and the query returns zero rows, `exportToGoogleSheet` returns without
error and sends no `values.clear`, `values.update` or `setBasicFilter`; the
only mutating requests of the call are the ones sent before the query: the
`deleteSheet` of a sheet titled `Лист1`, when there is one, and the `addSheet`
of the target, when the probe read failed. -/
theorem exportToGoogleSheet_no_rows (env : SheetsEnv) (hauth : env.authErr = none)
    (hensure : env.probeErr = none ∨ env.addSheetErr = none)
    (hquery : env.query = Except.ok []) :
    (exportToGoogleSheet env).thrown = none ∧
      ∀ q ∈ (exportToGoogleSheet env).requests, q.isMutating = true →
        (q = SheetRequest.addSheet "stocks_coefs" ∧ env.probeErr ≠ none) ∨
          ∃ sheets s, env.sheetsAtDelete = Except.ok sheets ∧ s ∈ sheets ∧
            s.title = "Лист1" ∧ q = SheetRequest.deleteSheet s.sheetId := by
  obtain ⟨hthrown, hreq⟩ := exportToGoogleSheet_reaches_query env hauth hensure
  have hrows : exportRows env = { thrown := none, requests := [] } := by
    unfold exportRows
    rw [hquery]
  rw [hthrown, hreq, hrows]
  refine ⟨rfl, ?_⟩
  intro q hq hmut
  simp only [List.append_nil, List.mem_append, List.mem_cons] at hq
  rcases hq with hq | hq | hq
  · rcases deleteSheetByName_requests env _ q hq with h | h
    · rw [h] at hmut; exact Bool.noConfusion hmut
    · exact Or.inr h
  · rw [hq] at hmut; exact Bool.noConfusion hmut
  · by_cases hp : env.probeErr = none
    · simp [hp] at hq
    · simp only [hp, if_false, List.mem_singleton] at hq
      exact Or.inl ⟨hq, hp⟩

/-- C5, witness: nothing to export and nothing to repair, so no mutating
request at all. -/
theorem exportToGoogleSheet_no_rows_witness :
    (exportToGoogleSheet quietSheets).thrown = none ∧
      ∀ q ∈ (exportToGoogleSheet quietSheets).requests, q.isMutating = true →
        (q = SheetRequest.addSheet "stocks_coefs" ∧ quietSheets.probeErr ≠ none) ∨
          ∃ sheets s, quietSheets.sheetsAtDelete = Except.ok sheets ∧ s ∈ sheets ∧
            s.title = "Лист1" ∧ q = SheetRequest.deleteSheet s.sheetId :=
  exportToGoogleSheet_no_rows quietSheets rfl (Or.inl rfl) rfl

/-- C5, counterexample: the query returns zero rows and the call returns
without error, yet it has sent a `deleteSheet` and an `addSheet`. -/
theorem exportToGoogleSheet_no_rows_still_mutates :
    freshSheets.query = Except.ok [] ∧
      (exportToGoogleSheet freshSheets).thrown = none ∧
      (exportToGoogleSheet freshSheets).requests =
        [SheetRequest.spreadsheetsGet, SheetRequest.deleteSheet 0,
          SheetRequest.valuesGet "stocks_coefs!A1", SheetRequest.addSheet "stocks_coefs"] ∧
      (SheetRequest.deleteSheet 0).isMutating = true ∧
      (SheetRequest.addSheet "stocks_coefs").isMutating = true := by
  refine ⟨rfl, by decide, by decide, rfl, rfl⟩

/-- C6: when authentication succeeds, the target sheet exists or is created,
the query returns the non-empty list `first :: rest` of `n` rows and the clear
request succeeds, the call sends `values.clear` on `stocks_coefs!A:Z` and next
`values.update` at `stocks_coefs!A1` (no other clear or update before or
after) with a matrix of `n + 1` rows: row 0 is the key list of `first`; row
`i + 1` holds, for each header in order, the `i`-th queried row's value under
that header with `null` replaced by the empty string and a date by its locale
string; for a queried row with the same distinct keys as `first` (every row of
a `select *`) these are the row's own values in its own order; and every row
has as many cells as there are headers. -/
theorem exportToGoogleSheet_clear_then_write (env : SheetsEnv) (first : JSObject)
    (rest : List JSObject) (hauth : env.authErr = none)
    (hensure : env.probeErr = none ∨ env.addSheetErr = none)
    (hquery : env.query = Except.ok (first :: rest)) (hclear : env.clearErr = none) :
    ∃ pre post M,
      (exportToGoogleSheet env).requests =
        pre ++ SheetRequest.valuesClear "stocks_coefs!A:Z" ::
          SheetRequest.valuesUpdate "stocks_coefs!A1" M :: post ∧
      (∀ q ∈ pre, q.touchesValues = false) ∧ (∀ q ∈ post, q.touchesValues = false) ∧
      M.length = (first :: rest).length + 1 ∧
      M[0]? = some (first.map (fun kv => JSValue.string kv.1)) ∧
      (∀ i row, (first :: rest)[i]? = some row →
        M[i + 1]? = some (first.map (fun kv =>
          match getProperty row kv.1 with
          | JSValue.null => JSValue.string ""
          | JSValue.date t => JSValue.string (env.toLocaleString t)
          | v => v))) ∧
      (∀ i row, (first :: rest)[i]? = some row →
        row.map (fun kv => kv.1) = first.map (fun kv => kv.1) →
        (first.map (fun kv => kv.1)).Nodup →
        M[i + 1]? = some (row.map (fun kv =>
          match kv.2 with
          | JSValue.null => JSValue.string ""
          | JSValue.date t => JSValue.string (env.toLocaleString t)
          | v => v))) ∧
      ∀ r ∈ M, r.length = first.length := by
  obtain ⟨-, hreq⟩ := exportToGoogleSheet_reaches_query env hauth hensure
  obtain ⟨post, hpost, hpostv⟩ := writeSheet_requests env first (first :: rest) hclear
  have hrows : exportRows env = writeSheet env first (first :: rest) := by
    unfold exportRows
    rw [hquery]
  have hcell : ∀ v, cellOf env v = (match v with
      | JSValue.null => JSValue.string ""
      | JSValue.date t => JSValue.string (env.toLocaleString t)
      | v => v) := by
    intro v; cases v <;> rfl
  rw [hrows, hpost] at hreq
  refine ⟨_, post, sheetMatrix env first (first :: rest), hreq, ?_, hpostv, ?_, ?_, ?_, ?_, ?_⟩
  · intro q hq
    simp only [List.mem_append, List.mem_cons] at hq
    rcases hq with hq | hq | hq
    · exact deleteSheetByName_no_values env _ q hq
    · rw [hq]; rfl
    · by_cases hp : env.probeErr = none
      · simp [hp] at hq
      · simp only [hp, if_false, List.mem_singleton] at hq
        rw [hq]; rfl
  · simp [sheetMatrix]
  · simp [sheetMatrix]
  · intro i row hrow
    simp only [sheetMatrix, List.getElem?_cons_succ, List.getElem?_map, hrow, Option.map_some',
      List.map_map, Function.comp_def, hcell]
  · intro i row hrow hsame hnodup
    have hget := getProperty_of_mem row (hsame ▸ hnodup)
    simp only [sheetMatrix, List.getElem?_cons_succ, List.getElem?_map, hrow, Option.map_some']
    rw [← hsame, List.map_map]
    congr 1
    apply List.map_congr_left
    intro kv hkv
    simp only [Function.comp_def, hcell, hget kv hkv]
  · intro r hr
    simp only [sheetMatrix, List.mem_cons, List.mem_map] at hr
    rcases hr with hr | ⟨row, -, hr⟩ <;> subst hr <;> simp

/-- C6, witness: two queried rows give a clear followed by a write of the
header row and of the two rows' values, in query order, the `null` as an
empty string and the dates as locale strings. -/
theorem exportToGoogleSheet_clear_then_write_witness :
    (∃ pre post,
      (exportToGoogleSheet twoRowSheets).requests =
        pre ++ SheetRequest.valuesClear "stocks_coefs!A:Z" ::
          SheetRequest.valuesUpdate "stocks_coefs!A1"
            [[JSValue.string "id", JSValue.string "warehouse_name",
               JSValue.string "delivery_base", JSValue.string "created_at"],
             [JSValue.number (JSNumber.finite false 1), JSValue.string "A", JSValue.string "",
               JSValue.string "16.07.2025, 08:10:12"],
             [JSValue.number (JSNumber.finite false 2), JSValue.string "B",
               JSValue.string "12.50", JSValue.string "16.07.2025, 08:10:12"]] :: post) ∧
      (exportToGoogleSheet twoRowSheets).requests =
        [SheetRequest.spreadsheetsGet, SheetRequest.valuesGet "stocks_coefs!A1",
          SheetRequest.valuesClear "stocks_coefs!A:Z",
          SheetRequest.valuesUpdate "stocks_coefs!A1"
            [[JSValue.string "id", JSValue.string "warehouse_name",
               JSValue.string "delivery_base", JSValue.string "created_at"],
             [JSValue.number (JSNumber.finite false 1), JSValue.string "A", JSValue.string "",
               JSValue.string "16.07.2025, 08:10:12"],
             [JSValue.number (JSNumber.finite false 2), JSValue.string "B",
               JSValue.string "12.50", JSValue.string "16.07.2025, 08:10:12"]],
          SheetRequest.spreadsheetsGet, SheetRequest.setBasicFilter 42 0 3 0 4] := by
  constructor
  · obtain ⟨pre, post, M, hreq, -, -, hlen, hhead, -, hrows, -⟩ :=
      exportToGoogleSheet_clear_then_write twoRowSheets _ _ rfl (Or.inl rfl) rfl rfl
    have h1 := hrows 0 _ rfl rfl (by decide)
    have h2 := hrows 1 _ rfl rfl (by decide)
    rcases M with _ | ⟨r0, _ | ⟨r1, _ | ⟨r2, _ | ⟨r3, M⟩⟩⟩⟩
    · simp at hlen
    · simp at hlen
    · simp at hlen
    · have e0 : r0 = _ := Option.some.inj hhead
      have e1 : r1 = _ := Option.some.inj h1
      have e2 : r2 = _ := Option.some.inj h2
      subst e0 e1 e2
      exact ⟨pre, post, hreq⟩
    · simp at hlen
  · decide

/-- C7 (amended): against a table whose ids are unique and drawn from the
sequence, after a first run whose fetch, select and writes all succeeded and
whose instant has, in the database session's time zone, the same date as in
UTC (always so in a UTC session), a second run in the same session time zone
on the same UTC calendar day with the same payload sends only updates, each
addressed by the id of a row present after the first run, and leaves the
number of rows unchanged. -/
theorem updateTariffs_second_run_stable (env1 env2 : SyncEnv) (tbl : Table)
    (payload : Payload) (hc : tbl.Consistent)
    (hfetch1 : env1.fetch = Except.ok payload) (hsel1 : env1.selectErr = none)
    (hw1 : ∀ j, j < payload.warehouseList.length → env1.writeErr j = none)
    (hfetch2 : env2.fetch = Except.ok payload)
    (hsession : ∀ t, env2.dbDate t = env1.dbDate t)
    (hday : formattedDate env2.today = formattedDate env1.today)
    (hzone : env1.dbDate env1.today = formattedDate env1.today) :
    (∀ op ∈ (updateTariffs env2 (updateTariffs env1 tbl).table).writes,
      ∃ id d, op = Write.update id d ∧
        id ∈ (updateTariffs env1 tbl).table.rows.map (fun r => r.id)) ∧
      (updateTariffs env2 (updateTariffs env1 tbl).table).table.rows.length
        = (updateTariffs env1 tbl).table.rows.length := by
  have hkeys := plan_name_day env1.dbDate env1.dbDate env1.dbNow env1.today payload.dtTillMax
    tbl hc payload.warehouseList
  rw [← (updateTariffs_ok env1 tbl payload hfetch1 hsel1 hw1).1] at hkeys
  generalize (updateTariffs env1 tbl).table = t1 at hkeys ⊢
  have hall : ∀ w ∈ payload.warehouseList,
      ∃ r ∈ existingRecords env2.dbDate env2.today t1,
        r.warehouse_name = w.warehouseName := by
    intro w hw
    have hmem : (w.warehouseName, formattedDate env1.today) ∈
        t1.rows.map (fun r => (r.warehouse_name, env1.dbDate r.created_at)) := by
      rw [hkeys, List.mem_append]
      by_cases hm : unmatched (existingRecords env1.dbDate env1.today tbl) w = true
      · exact Or.inr (List.mem_map.mpr ⟨w, List.mem_filter.mpr ⟨hw, hm⟩, by rw [hzone]⟩)
      · left
        have hex : ∃ r ∈ existingRecords env1.dbDate env1.today tbl,
            r.warehouse_name = w.warehouseName := by
          by_contra hno
          exact hm ((unmatched_iff _ w).mpr (fun r hr hn => hno ⟨r, hr, hn⟩))
        obtain ⟨r, hr, hn⟩ := hex
        have hr2 := (existingRecords_mem _ _ _ _).mp hr
        exact List.mem_map.mpr ⟨r, hr2.1, by rw [hn, hr2.2]⟩
    obtain ⟨r, hr, hrk⟩ := List.mem_map.mp hmem
    refine ⟨r, (existingRecords_mem _ _ _ _).mpr ⟨hr, ?_⟩, congrArg Prod.fst hrk⟩
    rw [hsession, hday]
    exact congrArg Prod.snd hrk
  have hupd : ∀ n, ∀ op ∈ (payload.warehouseList.take n).map
      (writeFor env2.today payload.dtTillMax (existingRecords env2.dbDate env2.today t1)),
      ∃ id d, op = Write.update id d ∧ id ∈ t1.rows.map (fun r => r.id) := by
    intro n op hop
    obtain ⟨w, hw, rfl⟩ := List.mem_map.mp hop
    obtain ⟨r, hr, -, hwf⟩ := writeFor_of_match env2.today payload.dtTillMax _ w
      (hall w (List.mem_of_mem_take hw))
    exact ⟨r.id, _, hwf,
      List.mem_map.mpr ⟨r, ((existingRecords_mem _ _ _ _).mp hr).1, rfl⟩⟩
  obtain ⟨k, k2, h1, h2⟩ := updateTariffs_shape env2 t1 payload hfetch2
  constructor
  · rw [h2]
    exact hupd k2
  · rw [h1]
    exact runWrites_updates_length _ _
      (fun op hop => by
        obtain ⟨id, d, h, -⟩ := hupd k op hop
        exact ⟨id, d, h⟩) t1

/-- C7, witness: in a session three hours east of UTC, the names `A` and `B`
fetched at 10:00 UTC and again at 11:00 UTC into an empty table: two rows after
each run. -/
theorem updateTariffs_second_run_stable_witness :
    ((∀ op ∈ (updateTariffs (eastEnv 1752663600000 [sampleWarehouse "A", sampleWarehouse "B"])
        (updateTariffs (eastEnv 1752660000000 [sampleWarehouse "A", sampleWarehouse "B"])
          emptyTable).table).writes,
      ∃ id d, op = Write.update id d ∧
        id ∈ (updateTariffs (eastEnv 1752660000000 [sampleWarehouse "A", sampleWarehouse "B"])
          emptyTable).table.rows.map (fun r => r.id)) ∧
      (updateTariffs (eastEnv 1752663600000 [sampleWarehouse "A", sampleWarehouse "B"])
        (updateTariffs (eastEnv 1752660000000 [sampleWarehouse "A", sampleWarehouse "B"])
          emptyTable).table).table.rows.length
        = (updateTariffs (eastEnv 1752660000000 [sampleWarehouse "A", sampleWarehouse "B"])
          emptyTable).table.rows.length) ∧
      (updateTariffs (eastEnv 1752660000000 [sampleWarehouse "A", sampleWarehouse "B"])
        emptyTable).table.rows.length = 2 :=
  ⟨updateTariffs_second_run_stable
      (eastEnv 1752660000000 [sampleWarehouse "A", sampleWarehouse "B"])
      (eastEnv 1752663600000 [sampleWarehouse "A", sampleWarehouse "B"]) emptyTable
      { dtTillMax := "2025-07-20",
        warehouseList := [sampleWarehouse "A", sampleWarehouse "B"] }
      (by decide) rfl rfl (fun _ _ => rfl) rfl (fun _ => rfl) (by decide) (by decide),
    by decide⟩

/-- C7, counterexample: in a session three hours east of UTC, the name `A` is
fetched at 21:30 UTC and again at 22:00 UTC the same day (the same day in the
session's calendar too).  The first run succeeds and leaves one row, created
on 17 July by the session's date; the second run asks for the rows of 16 July,
the UTC date, finds none, sends an insert, and leaves two rows. -/
theorem updateTariffs_second_run_inserts_again :
    formattedDate 1752703200000 = formattedDate 1752701400000 ∧
      dateAtOffset 10800000 1752703200000 = dateAtOffset 10800000 1752701400000 ∧
      (updateTariffs (eastEnv 1752701400000 [sampleWarehouse "A"]) emptyTable).thrown = none ∧
      (updateTariffs (eastEnv 1752701400000 [sampleWarehouse "A"])
        emptyTable).table.rows.length = 1 ∧
      (∃ d, (updateTariffs (eastEnv 1752703200000 [sampleWarehouse "A"])
        (updateTariffs (eastEnv 1752701400000 [sampleWarehouse "A"])
          emptyTable).table).writes = [Write.insert d]) ∧
      (updateTariffs (eastEnv 1752703200000 [sampleWarehouse "A"])
        (updateTariffs (eastEnv 1752701400000 [sampleWarehouse "A"])
          emptyTable).table).table.rows.length = 2 := by
  refine ⟨by decide, by decide, by decide, by decide, ⟨_, rfl⟩, by decide⟩

/-- C8: when the fetch and the select succeed, the writes for the warehouses
before position `k` succeed and the write for the warehouse at position `k`
fails with `e`, the call rethrows `e`, the table is the one produced by the
first `k` writes, exactly the first `k + 1` statements were sent, and the
exporter was not invoked. -/
theorem updateTariffs_write_failure (env : SyncEnv) (tbl : Table) (payload : Payload)
    (k : Nat) (e : Err)
    (hfetch : env.fetch = Except.ok payload) (hsel : env.selectErr = none)
    (hk : k < payload.warehouseList.length)
    (hbefore : ∀ j, j < k → env.writeErr j = none)
    (hfail : env.writeErr k = some e) :
    (updateTariffs env tbl).thrown = some e ∧
      (updateTariffs env tbl).table
        = runWrites env.dbNow tbl ((payload.warehouseList.take k).map
            (writeFor env.today payload.dtTillMax (existingRecords env.dbDate env.today tbl))) ∧
      (updateTariffs env tbl).writes
        = (payload.warehouseList.take (k + 1)).map
            (writeFor env.today payload.dtTillMax (existingRecords env.dbDate env.today tbl)) ∧
      (updateTariffs env tbl).exported = none := by
  have hloop := syncLoop_fail env payload.dtTillMax (existingRecords env.dbDate env.today tbl) e
    payload.warehouseList k 0 tbl [] hk (fun j hj => by simpa using hbefore j hj)
    (by simpa using hfail)
  unfold updateTariffs
  simp only [hfetch, hsel]
  rw [hloop]
  simp

/-- C8, witness: the second of three writes fails; the row for `A` stays, no
statement is sent for `C`, the exporter is not invoked. -/
theorem updateTariffs_write_failure_witness :
    (updateTariffs failingEnv emptyTable).thrown = some "connection lost" ∧
      (updateTariffs failingEnv emptyTable).table.rows.map (fun r => r.warehouse_name) = ["A"] ∧
      (updateTariffs failingEnv emptyTable).writes.length = 2 ∧
      (updateTariffs failingEnv emptyTable).exported = none := by
  have h := updateTariffs_write_failure failingEnv emptyTable
    { dtTillMax := "2025-07-20",
      warehouseList := [sampleWarehouse "A", sampleWarehouse "B", sampleWarehouse "C"] }
    1 "connection lost" rfl rfl (by decide) (fun j hj => by
      have : j = 0 := by omega
      subst this
      rfl) rfl
  refine ⟨h.1, ?_, ?_, h.2.2.2⟩
  · rw [h.2.1]; decide
  · rw [h.2.2.1]; decide

/-- C9 (amended): `initialize` calls `process.exit` (with code 1) exactly when
the connectivity check fails or the sync run made during startup throws, and
does not call it when both succeed; the callback of a scheduled run never
calls it. -/
theorem initializeApp_exit_iff (select1Err : Option Err) (env : SyncEnv) (tbl : Table) :
    ((initializeApp select1Err env tbl).exitCode = some 1 ↔
        select1Err ≠ none ∨ (updateTariffs env tbl).thrown ≠ none) ∧
      ((initializeApp select1Err env tbl).exitCode = none ↔
        select1Err = none ∧ (updateTariffs env tbl).thrown = none) ∧
      (scheduledRun env tbl).exitCode = none := by
  refine ⟨?_, ?_, rfl⟩
  · unfold initializeApp
    cases select1Err with
    | some e => simp
    | none =>
      cases h : (updateTariffs env tbl).thrown with
      | some e => simp [h]
      | none => simp [h]
  · unfold initializeApp
    cases select1Err with
    | some e => simp
    | none =>
      cases h : (updateTariffs env tbl).thrown with
      | some e => simp [h]
      | none => simp [h]

/-- C9, counterexample: the connectivity check succeeds, the sync run made
during startup fails, and the process exits with code 1. -/
theorem initializeApp_exits_on_first_sync_failure :
    (updateTariffs fetchFailsEnv emptyTable).thrown
        = some "Request failed with status code 401" ∧
      (initializeApp none fetchFailsEnv emptyTable).exitCode = some 1 := by
  constructor <;> rfl

/-- C10 (amended): for every input string other than `-`, `parseNumber`
returns a number (the model's function is total: no input string makes it
throw), and that number is `NaN` exactly when, after the first comma has been
replaced by a dot and leading white space skipped, no text at the front of the
string is a decimal literal.  Text that follows a numeric start is ignored:
`"12abc"` gives 12 and `"1,234,56"` gives 1.234 (as a double). -/
theorem parseNumber_nan_iff (s : String) (hs : s ≠ "-") :
    (∃ x, parseNumber s = some x) ∧
      (parseNumber s = some JSNumber.nan ↔
        ¬ HasNumericStart ((replaceFirst ',' '.' s.toList).dropWhile isStrWhiteSpaceChar)) ∧
      parseNumber "12abc" = some (JSNumber.finite false 12) ∧
      parseNumber "1,234,56" = some (roundMV false (617 / 500)) ∧
      roundMV false (617 / 500)
        = JSNumber.finite false (694680242521899 / 562949953421312) := by
  refine ⟨?_, ?_, ?_, ?_, ?_⟩
  · exact ⟨_, by unfold parseNumber; rw [if_neg hs]⟩
  · unfold parseNumber
    rw [if_neg hs, ← parseFloat_nan_iff]
    exact ⟨fun h => Option.some.inj h, fun h => congrArg some h⟩
  · decide!
  · decide!
  · decide!

/-- C10, witness: the string `abc` has no numeric start and gives `NaN`. -/
theorem parseNumber_nan_iff_witness :
    "abc" ≠ "-" ∧ (∃ x, parseNumber "abc" = some x) ∧
      parseNumber "abc" = some JSNumber.nan :=
  ⟨by decide, (parseNumber_nan_iff "abc" (by decide)).1,
    (parseNumber_nan_iff "abc" (by decide)).2.1.mpr (by
      rw [hasNumericStart_iff]
      decide)⟩

/-- C10, counterexample: `"12abc"` and `"1,234,56"` are not `-` and are not
well-formed comma-decimal numbers, yet `parseNumber` returns 12 and 1.234 for
them, not `NaN`. -/
theorem parseNumber_malformed_not_nan :
    ("12abc" ≠ "-" ∧ ¬ IsCommaDecimal "12abc".toList ∧
        parseNumber "12abc" = some (JSNumber.finite false 12)) ∧
      ("1,234,56" ≠ "-" ∧ ¬ IsCommaDecimal "1,234,56".toList ∧
        parseNumber "1,234,56"
          = some (JSNumber.finite false (694680242521899 / 562949953421312))) := by
  refine ⟨⟨by decide, ?_, ?_⟩, ⟨by decide, ?_, ?_⟩⟩
  · rintro ⟨a, b, -, -, h⟩
    have hmem : ',' ∈ "12abc".toList := by rw [h]; simp
    revert hmem
    decide
  · decide!
  · rintro ⟨a, b, ha, hb, h⟩
    have h2 : ['1', ',', '2', '3', '4', ',', '5', '6'] = a ++ ',' :: b := h
    cases a with
    | nil => exact absurd (List.cons.inj h2).1 (by decide)
    | cons c a =>
      cases a with
      | nil =>
        have hb2 : b = ['2', '3', '4', ',', '5', '6'] :=
          (List.cons.inj (List.cons.inj h2).2).2.symm
        have := hb ',' (by rw [hb2]; simp)
        revert this
        decide
      | cons c2 a =>
        have hc2 : c2 = ',' := (List.cons.inj (List.cons.inj h2).2).1.symm
        have := ha c2 (by simp)
        rw [hc2] at this
        revert this
        decide
  · decide!

end WB
